import Mathlib

/-!
# Verification of the shelltree session store and split-view layout engine

Shallow embedding of `src/stores/sessionStore.ts` and the pane-size logic of
`src/components/Terminal/SplitTerminalView.tsx`.

JavaScript `Map` objects are modelled as insertion-ordered association lists
(`List (String × α)`): `set` on a present key updates in place, `set` on an
absent key appends, `delete` filters, and iteration follows list order, which
matches JS `Map` iteration semantics.  Falsy checks on strings
(`x || null`, `if (!x)`) are modelled explicitly: `null`/`undefined` and the
empty string are falsy.  Pane sizes, which are JS numbers, are modelled as
exact rationals (`ℚ`); the operations involved (`+`, `-`, `min`, `max`,
division by a count) are the same algebra.
-/

namespace Shelltree

/-- Session status, from the union type `"running" | "stopped" | "error"`. -/
inductive SessionStatus where
  | running
  | stopped
  | error
deriving DecidableEq, Repr

/-- A session record, from `interface Session` (the `terminal` UI handle is
state of the rendering layer and carries no data the store logic reads, so it
is omitted). -/
structure Session where
  id : String
  name : String
  groupId : Option String
  shell : String
  status : SessionStatus
deriving DecidableEq, Repr

/-- A group record, from `interface SessionGroup`. -/
structure SessionGroup where
  id : String
  name : String
  collapsed : Bool
  order : Int
deriving DecidableEq, Repr

/-- From `type SplitDirection = "horizontal" | "vertical"`. -/
inductive SplitDirection where
  | horizontal
  | vertical
deriving DecidableEq, Repr

/-- From `interface SplitView`. -/
structure SplitView where
  enabled : Bool
  sessionIds : List String
  direction : SplitDirection
deriving DecidableEq, Repr

/-! ## JS `Map` model -/

/-- `m.get(k)`, as an association-list lookup. -/
def mapGet (m : List (String × α)) (k : String) : Option α :=
  (m.find? (fun p => p.1 = k)).map (fun p => p.2)

/-- `m.has(k)`. -/
def mapHas (m : List (String × α)) (k : String) : Bool :=
  m.any (fun p => p.1 = k)

/-- `m.set(k, v)`: update in place when the key is present, append otherwise
(JS `Map` keeps the original insertion position on update). -/
def mapSet (m : List (String × α)) (k : String) (v : α) : List (String × α) :=
  if mapHas m k then m.map (fun p => if p.1 = k then (k, v) else p)
  else m ++ [(k, v)]

/-- `m.delete(k)`. -/
def mapDelete (m : List (String × α)) (k : String) : List (String × α) :=
  m.filter (fun p => p.1 ≠ k)

/-- `Array.from(m.keys())`, in insertion order. -/
def mapKeys (m : List (String × α)) : List String :=
  m.map (fun p => p.1)

/-- `Array.from(m.values())`, in insertion order. -/
def mapValues (m : List (String × α)) : List α :=
  m.map (fun p => p.2)

/-! ## Store state -/

/-- The mutable fields of the zustand store (`interface SessionStore`,
data part). -/
structure SessionStore where
  sessions : List (String × Session)
  groups : List (String × SessionGroup)
  activeSessionId : Option String
  isLoading : Bool
  splitView : SplitView
deriving DecidableEq, Repr

/-- The initial store state (`useSessionStore` create argument). -/
def initialStore : SessionStore where
  sessions := []
  groups := []
  activeSessionId := none
  isLoading := false
  splitView := { enabled := false, sessionIds := [], direction := .vertical }

/-- `getSessionsInGroup(groupId)`: values filtered by group reference. -/
def getSessionsInGroup (st : SessionStore) (groupId : Option String) : List Session :=
  (mapValues st.sessions).filter (fun s => s.groupId = groupId)

/-! ## JS falsiness helpers -/

/-- Truthiness of a JS string: only the empty string is falsy. -/
def jsTruthy (s : String) : Bool := s ≠ ""

/-- `l[0] || null` on a JS string array: the first element when it exists and
is truthy, otherwise `null` (`undefined || null` and `"" || null` are both
`null`). -/
def jsFirstOrNull (l : List String) : Option String :=
  match l.head? with
  | some s => if jsTruthy s then some s else none
  | none => none

/-- `l[0] || fallback`: the first element when it exists and is truthy,
otherwise the fallback. -/
def jsFirstOr (l : List String) (fallback : Option String) : Option String :=
  match l.head? with
  | some s => if jsTruthy s then some s else fallback
  | none => fallback

/-! ## Split-view actions (local, no host round-trip) -/

/-- `enableSplitView(sessionIds, direction)`: a no-op for fewer than two ids;
otherwise enables the split with exactly the given ids and moves the active
selection to the first id. -/
def enableSplitView (sessionIds : List String) (direction : SplitDirection)
    (st : SessionStore) : SessionStore :=
  if sessionIds.length < 2 then st
  else
    { st with
      splitView := { enabled := true, sessionIds := sessionIds, direction := direction }
      activeSessionId := sessionIds.head? }

/-- `disableSplitView()`: resets the split view and moves the active selection
to the first split member when there was one (otherwise keeps the current
active selection, per `sessionIds[0] || get().activeSessionId`). -/
def disableSplitView (st : SessionStore) : SessionStore :=
  { st with
    splitView := { enabled := false, sessionIds := [], direction := .vertical }
    activeSessionId := jsFirstOr st.splitView.sessionIds st.activeSessionId }

/-- `addToSplit(sessionId)`: ignores unknown sessions; when disabled, starts a
two-pane split of the current active session and the new one (no-op when they
coincide or no session is active); when enabled, appends the id unless already
a member. -/
def addToSplit (sessionId : String) (st : SessionStore) : SessionStore :=
  if ¬ mapHas st.sessions sessionId then st
  else if ¬ st.splitView.enabled then
    match st.activeSessionId with
    | some activeId =>
      if jsTruthy activeId ∧ activeId ≠ sessionId then
        { st with
          splitView :=
            { enabled := true, sessionIds := [activeId, sessionId], direction := .vertical } }
      else st
    | none => st
  else if sessionId ∈ st.splitView.sessionIds then st
  else
    { st with
      splitView :=
        { st.splitView with sessionIds := st.splitView.sessionIds ++ [sessionId] } }

/-- `removeFromSplit(sessionId)`: filters the id out; below two remaining
members the split view is disabled and the active selection becomes
`newSessionIds[0] || null`. -/
def removeFromSplit (sessionId : String) (st : SessionStore) : SessionStore :=
  let newSessionIds := st.splitView.sessionIds.filter (fun id => id ≠ sessionId)
  if newSessionIds.length < 2 then
    { st with
      splitView := { enabled := false, sessionIds := [], direction := .vertical }
      activeSessionId := jsFirstOrNull newSessionIds }
  else
    { st with splitView := { st.splitView with sessionIds := newSessionIds } }

/-- `setSplitDirection(direction)`. -/
def setSplitDirection (direction : SplitDirection) (st : SessionStore) : SessionStore :=
  { st with splitView := { st.splitView with direction := direction } }

/-- `splitGroup(groupId, direction)`: enables a split over all sessions of the
group; a no-op for fewer than two members. -/
def splitGroup (groupId : String) (direction : SplitDirection)
    (st : SessionStore) : SessionStore :=
  let sessionsInGroup := getSessionsInGroup st (some groupId)
  if sessionsInGroup.length < 2 then st
  else
    let sessionIds := sessionsInGroup.map (fun s => s.id)
    { st with
      splitView := { enabled := true, sessionIds := sessionIds, direction := direction }
      activeSessionId := sessionIds.head? }

/-- `setActiveSession(id)`: stores the id with no registry validation. -/
def setActiveSession (id : Option String) (st : SessionStore) : SessionStore :=
  { st with activeSessionId := id }

/-- `updateSessionStatus(id, status)`: local-only field update. -/
def updateSessionStatus (id : String) (status : SessionStatus)
    (st : SessionStore) : SessionStore :=
  match mapGet st.sessions id with
  | some session => { st with sessions := mapSet st.sessions id { session with status := status } }
  | none => st

/-! ## Host-involving actions

Actions that `await` a process-host (tauri) call are modelled by passing the
host call's outcome explicitly as an `Except` value.  Each action returns the
store state at the moment the action finishes — normally or by a propagated
rejection — paired with the outcome handed to the caller, so that "local state
left unchanged on failure" is a statement about the returned state. -/

/-- Host errors are opaque messages. -/
abbrev HostErr := String

/-- The session descriptor the host returns from `create_session`
(`SessionInfo` in `src/lib/tauri.ts`, fields the store reads). -/
structure SessionInfo where
  id : String
  name : String
  group_id : Option String
  shell : String
  cwd : String
deriving DecidableEq, Repr

/-- The session record the store builds from a host descriptor: always
inserted with status running. -/
def sessionOfInfo (info : SessionInfo) : Session :=
  { id := info.id, name := info.name, groupId := info.group_id,
    shell := info.shell, status := .running }

/-- `createSession(name, groupId?)`: awaits the host create; on success
inserts the returned descriptor as a running session and makes it active. -/
def createSession (hostRes : Except HostErr SessionInfo)
    (st : SessionStore) : SessionStore × Except HostErr String :=
  match hostRes with
  | .error e => (st, .error e)
  | .ok info =>
    let session := sessionOfInfo info
    ({ st with
        sessions := mapSet st.sessions session.id session
        activeSessionId := some session.id },
     .ok session.id)

/-- The local mutation of `deleteSession(id)` after the host confirmed:
removes the record, falls back to the first remaining key when the deleted
session was active (null when none remain), and filters the id out of the
split membership, disabling the split view below two members. -/
def deleteSessionLocal (id : String) (st : SessionStore) : SessionStore :=
  let sessions := mapDelete st.sessions id
  let newActiveId :=
    if st.activeSessionId = some id then
      match mapKeys sessions with
      | [] => none
      | k :: _ => some k
    else st.activeSessionId
  let newSplitSessionIds := st.splitView.sessionIds.filter (fun sid => sid ≠ id)
  let splitView :=
    if newSplitSessionIds.length < 2 then
      { enabled := false, sessionIds := [], direction := SplitDirection.vertical }
    else { st.splitView with sessionIds := newSplitSessionIds }
  { st with sessions := sessions, activeSessionId := newActiveId, splitView := splitView }

/-- `deleteSession(id)`: awaits the host delete, then applies the local
mutation. -/
def deleteSession (hostRes : Except HostErr Unit) (id : String)
    (st : SessionStore) : SessionStore × Except HostErr Unit :=
  match hostRes with
  | .error e => (st, .error e)
  | .ok _ => (deleteSessionLocal id st, .ok ())

/-- `renameSession(id, name)`. -/
def renameSession (hostRes : Except HostErr Unit) (id name : String)
    (st : SessionStore) : SessionStore × Except HostErr Unit :=
  match hostRes with
  | .error e => (st, .error e)
  | .ok _ =>
    match mapGet st.sessions id with
    | some session =>
      ({ st with sessions := mapSet st.sessions id { session with name := name } }, .ok ())
    | none => (st, .ok ())

/-- `setSessionGroup(id, groupId)`. -/
def setSessionGroup (hostRes : Except HostErr Unit) (id : String)
    (groupId : Option String) (st : SessionStore) : SessionStore × Except HostErr Unit :=
  match hostRes with
  | .error e => (st, .error e)
  | .ok _ =>
    match mapGet st.sessions id with
    | some session =>
      ({ st with sessions := mapSet st.sessions id { session with groupId := groupId } }, .ok ())
    | none => (st, .ok ())

/-- `createGroup(name)`: inserts the host-returned group record. -/
def createGroup (hostRes : Except HostErr SessionGroup)
    (st : SessionStore) : SessionStore × Except HostErr String :=
  match hostRes with
  | .error e => (st, .error e)
  | .ok group =>
    ({ st with groups := mapSet st.groups group.id group }, .ok group.id)

/-- `renameGroup(id, name)`. -/
def renameGroup (hostRes : Except HostErr Unit) (id name : String)
    (st : SessionStore) : SessionStore × Except HostErr Unit :=
  match hostRes with
  | .error e => (st, .error e)
  | .ok _ =>
    match mapGet st.groups id with
    | some group =>
      ({ st with groups := mapSet st.groups id { group with name := name } }, .ok ())
    | none => (st, .ok ())

/-- `toggleGroupCollapsed(id)`: the host returns the new collapsed flag,
which is then stored. -/
def toggleGroupCollapsed (hostRes : Except HostErr Bool) (id : String)
    (st : SessionStore) : SessionStore × Except HostErr Unit :=
  match hostRes with
  | .error e => (st, .error e)
  | .ok collapsed =>
    match mapGet st.groups id with
    | some group =>
      ({ st with groups := mapSet st.groups id { group with collapsed := collapsed } }, .ok ())
    | none => (st, .ok ())

/-- The re-parent loop inside `deleteGroup`: awaits `setSessionGroup(m, null)`
for each member in order; a rejection aborts the loop and propagates, leaving
the mutations already made in place. -/
def deleteGroupLoop (oracle : String → Except HostErr Unit) :
    List String → SessionStore → SessionStore × Except HostErr Unit
  | [], st => (st, .ok ())
  | m :: rest, st =>
    match setSessionGroup (oracle m) m none st with
    | (st', .ok _) => deleteGroupLoop oracle rest st'
    | (st', .error e) => (st', .error e)

/-- `deleteGroup(id)`: awaits the host group delete, re-parents every member
session to ungrouped (one awaited host call each), then removes the group
from the local map. -/
def deleteGroup (hostDel : Except HostErr Unit)
    (oracle : String → Except HostErr Unit) (id : String)
    (st : SessionStore) : SessionStore × Except HostErr Unit :=
  match hostDel with
  | .error e => (st, .error e)
  | .ok _ =>
    let members := (getSessionsInGroup st (some id)).map (fun s => s.id)
    match deleteGroupLoop oracle members st with
    | (st', .ok _) => ({ st' with groups := mapDelete st'.groups id }, .ok ())
    | (st', .error e) => (st', .error e)

/-! ## Restore protocol (`loadLayout`) -/

/-- A persisted session entry of the snapshot
(`SessionInfo` as serialized by the host; fields `loadLayout` reads, plus the
persisted status, which `loadLayout` deliberately ignores). -/
structure SavedSession where
  id : String
  name : String
  group_id : Option String
  shell : String
  cwd : String
  status : SessionStatus
deriving DecidableEq, Repr

/-- The snapshot shape (`AppState` in `src/lib/tauri.ts`). -/
structure AppState where
  sessions : List SavedSession
  groups : List SessionGroup
  active_session_id : Option String
deriving DecidableEq, Repr

/-- `if (!firstSessionId) firstSessionId = session.id`: a null or empty
tracked id is replaced. -/
def updateFirstSessionId (first : Option String) (id : String) : Option String :=
  match first with
  | none => some id
  | some s => if jsTruthy s then some s else some id

/-- The group-loading phase: builds a fresh map from the persisted groups in
order and installs it. -/
def loadGroups (gs : List SessionGroup) : List (String × SessionGroup) :=
  gs.foldl (fun m g => mapSet m g.id g) []

/-- The session-restoration loop: recreates each saved session in persisted
order, one awaited host call at a time (`oracle k` is the outcome of the
`k`-th create call); a failed entry is logged and skipped, a successful one is
inserted with status running; tracks the first successfully recreated id. -/
def loadLayoutSessions (oracle : ℕ → Except HostErr SessionInfo) :
    List SavedSession → ℕ → SessionStore → Option String → SessionStore × Option String
  | [], _, st, first => (st, first)
  | _ :: rest, k, st, first =>
    match oracle k with
    | .error _ => loadLayoutSessions oracle rest (k + 1) st first
    | .ok info =>
      let session := sessionOfInfo info
      let st' := { st with sessions := mapSet st.sessions session.id session }
      loadLayoutSessions oracle rest (k + 1) st' (updateFirstSessionId first session.id)

/-- `loadLayout()`: the whole body is inside `try { ... } catch`, so every
outcome — the fetch rejecting, no snapshot, individual recreation failures —
yields a final state rather than an escaping exception.  `snapshot` is the
outcome of `tauri.loadLayout()`. -/
def loadLayout (snapshot : Except HostErr (Option AppState))
    (oracle : ℕ → Except HostErr SessionInfo) (st : SessionStore) : SessionStore :=
  match snapshot with
  | .error _ => { st with isLoading := false }
  | .ok none => { st with isLoading := false }
  | .ok (some state) =>
    let st1 := { st with isLoading := true, groups := loadGroups state.groups }
    let res := loadLayoutSessions oracle state.sessions 0 st1 none
    { res.1 with activeSessionId := res.2, isLoading := false }

/-- The host descriptors of the snapshot entries that recreate successfully,
in persisted order, when the restoration loop starts at call index `k`. -/
def restoredEntries (oracle : ℕ → Except HostErr SessionInfo) :
    ℕ → List SavedSession → List SessionInfo
  | _, [] => []
  | k, _ :: rest =>
    match oracle k with
    | .error _ => restoredEntries oracle (k + 1) rest
    | .ok info => info :: restoredEntries oracle (k + 1) rest

/-! ## Pane sizes (`SplitTerminalView`) -/

/-- The pane-size initialization and reset:
`sessionIds.map(() => 100 / sessionIds.length)`. -/
def resetPaneSizes (sessionIds : List String) : List ℚ :=
  sessionIds.map (fun _ => (100 : ℚ) / sessionIds.length)

/-- One `handleMouseMove` step of the divider drag: `pointerFrac` is the
pointer position as a fraction of the total layout extent
(`mousePos / totalSize`).  The pane at `resizingIndex` is set to
`mousePercent - cumulative` clamped to `[10, 90]`, and the pane at
`resizingIndex + 1` absorbs the negated delta with a floor of `10`. -/
def resizeDivider (paneSizes : List ℚ) (resizingIndex : ℕ)
    (pointerFrac : ℚ) : List ℚ :=
  let mousePercent := pointerFrac * 100
  let cumulative := (paneSizes.take resizingIndex).sum
  let newSize := max 10 (min 90 (mousePercent - cumulative))
  let diff := newSize - paneSizes.getD resizingIndex 0
  (paneSizes.set resizingIndex newSize).set (resizingIndex + 1)
    (max 10 (paneSizes.getD (resizingIndex + 1) 0 - diff))

/-- The split-view component state: the store plus the component-local
`paneSizes` array. -/
structure SplitPanes where
  store : SessionStore
  paneSizes : List ℚ
deriving DecidableEq, Repr

/-- The `useEffect` keyed on `sessionIds.length`: when the membership length
changes the pane sizes are reset to equal shares, otherwise kept. -/
def syncPaneSizes (oldIds newIds : List String) (sizes : List ℚ) : List ℚ :=
  if newIds.length = oldIds.length then sizes else resetPaneSizes newIds

/-- The pane-relevant operations of claim C3: split membership changes plus
the divider drag. -/
inductive PaneOp where
  | add (id : String)
  | remove (id : String)
  | resize (dividerIndex : ℕ) (pointerFrac : ℚ)

/-- Apply a pane-relevant operation to the component state: store membership
changes are followed by the length-keyed reset effect. -/
def applyPaneOp (op : PaneOp) (v : SplitPanes) : SplitPanes :=
  match op with
  | .add id =>
    let store := addToSplit id v.store
    { store := store,
      paneSizes :=
        syncPaneSizes v.store.splitView.sessionIds store.splitView.sessionIds v.paneSizes }
  | .remove id =>
    let store := removeFromSplit id v.store
    { store := store,
      paneSizes :=
        syncPaneSizes v.store.splitView.sessionIds store.splitView.sessionIds v.paneSizes }
  | .resize dividerIndex pointerFrac =>
    { v with paneSizes := resizeDivider v.paneSizes dividerIndex pointerFrac }

/-! ## Operation languages and invariants -/

/-- The split-view operations of claim C2 (`delete` is a host-confirmed
`deleteSession`, whose local mutation is `deleteSessionLocal`; a rejected
delete leaves the state untouched). -/
inductive SplitOp where
  | enable (ids : List String) (dir : SplitDirection)
  | disable
  | add (id : String)
  | remove (id : String)
  | splitG (gid : String) (dir : SplitDirection)
  | delete (id : String)

/-- Apply one split-view operation. -/
def applySplitOp (op : SplitOp) (st : SessionStore) : SessionStore :=
  match op with
  | .enable ids dir => enableSplitView ids dir st
  | .disable => disableSplitView st
  | .add id => addToSplit id st
  | .remove id => removeFromSplit id st
  | .splitG gid dir => splitGroup gid dir st
  | .delete id => deleteSessionLocal id st

/-- The split-view state-machine invariant: Disabled with empty membership,
or Enabled with at least two members. -/
def SplitInv (st : SessionStore) : Prop :=
  (st.splitView.enabled = false ∧ st.splitView.sessionIds = []) ∨
  (st.splitView.enabled = true ∧ 2 ≤ st.splitView.sessionIds.length)

/-- The active selection is null or a registered session key. -/
def activeOk (st : SessionStore) : Bool :=
  match st.activeSessionId with
  | none => true
  | some id => mapHas st.sessions id

/-- Every split member is a registered session key. -/
def splitIdsOk (st : SessionStore) : Bool :=
  st.splitView.sessionIds.all (fun id => mapHas st.sessions id)

/-- Every session record's `id` field equals its map key. -/
def sessionKeysMatch (st : SessionStore) : Bool :=
  st.sessions.all (fun kv => kv.2.id = kv.1)

/-- The registry referential invariant: valid active selection, valid split
membership, and key-consistent records. -/
def RegistryInv (st : SessionStore) : Prop :=
  activeOk st = true ∧ splitIdsOk st = true ∧ sessionKeysMatch st = true

/-- Every store operation, with host outcomes passed explicitly (success-path
and failure-path alike). -/
inductive StoreOp where
  | create (hostRes : Except HostErr SessionInfo)
  | deleteS (hostRes : Except HostErr Unit) (id : String)
  | rename (hostRes : Except HostErr Unit) (id name : String)
  | setActive (id : Option String)
  | setStatus (id : String) (status : SessionStatus)
  | setGroup (hostRes : Except HostErr Unit) (id : String) (gid : Option String)
  | createG (hostRes : Except HostErr SessionGroup)
  | deleteG (hostDel : Except HostErr Unit) (oracle : String → Except HostErr Unit) (id : String)
  | renameG (hostRes : Except HostErr Unit) (id name : String)
  | toggleC (hostRes : Except HostErr Bool) (id : String)
  | enable (ids : List String) (dir : SplitDirection)
  | disable
  | add (id : String)
  | remove (id : String)
  | setDir (dir : SplitDirection)
  | splitG (gid : String) (dir : SplitDirection)
  | loadL (snapshot : Except HostErr (Option AppState)) (oracle : ℕ → Except HostErr SessionInfo)

/-- Apply one store operation (the resulting local state; host outcomes are
part of the operation). -/
def applyStoreOp (op : StoreOp) (st : SessionStore) : SessionStore :=
  match op with
  | .create hostRes => (createSession hostRes st).1
  | .deleteS hostRes id => (deleteSession hostRes id st).1
  | .rename hostRes id name => (renameSession hostRes id name st).1
  | .setActive id => setActiveSession id st
  | .setStatus id status => updateSessionStatus id status st
  | .setGroup hostRes id gid => (setSessionGroup hostRes id gid st).1
  | .createG hostRes => (createGroup hostRes st).1
  | .deleteG hostDel oracle id => (deleteGroup hostDel oracle id st).1
  | .renameG hostRes id name => (renameGroup hostRes id name st).1
  | .toggleC hostRes id => (toggleGroupCollapsed hostRes id st).1
  | .enable ids dir => enableSplitView ids dir st
  | .disable => disableSplitView st
  | .add id => addToSplit id st
  | .remove id => removeFromSplit id st
  | .setDir dir => setSplitDirection dir st
  | .splitG gid dir => splitGroup gid dir st
  | .loadL snapshot oracle => loadLayout snapshot oracle st

/-- Call-site validity: `setActiveSession` invoked only with null or a
registered id, `enableSplitView` only with registered ids (the store itself
performs no such check). -/
def validOp (op : StoreOp) (st : SessionStore) : Prop :=
  match op with
  | .setActive (some id) => mapHas st.sessions id = true
  | .enable ids _ => ∀ id ∈ ids, mapHas st.sessions id = true
  | _ => True


/-! ## Concrete example states (used by witnesses and counterexamples) -/

/-- An example session record. -/
def sessionA : Session :=
  { id := "a", name := "A", groupId := none, shell := "zsh", status := .running }

/-- A second example session record. -/
def sessionB : Session :=
  { id := "b", name := "B", groupId := none, shell := "zsh", status := .running }

/-- A third example session record. -/
def sessionC : Session :=
  { id := "c", name := "C", groupId := none, shell := "zsh", status := .running }

/-- A store with one registered session `"a"`, which is active, and the split
view disabled. -/
def oneSessionStore : SessionStore :=
  { initialStore with
    sessions := [("a", sessionA)]
    activeSessionId := some "a" }

/-- A store with two registered sessions shown in an enabled two-pane split. -/
def twoPaneStore : SessionStore :=
  { initialStore with
    sessions := [("a", sessionA), ("b", sessionB)]
    activeSessionId := some "b"
    splitView := { enabled := true, sessionIds := ["a", "b"], direction := .vertical } }

/-- A store with a group `"g"` containing two member sessions. -/
def groupedStore : SessionStore :=
  { initialStore with
    sessions :=
      [("a", { sessionA with groupId := some "g" }),
       ("b", { sessionB with groupId := some "g" }),
       ("c", sessionC)]
    groups := [("g", { id := "g", name := "G", collapsed := false, order := 0 })]
    activeSessionId := some "a" }

/-- A persisted snapshot entry for session "A". -/
def savedA : SavedSession :=
  { id := "pa", name := "A", group_id := some "g1", shell := "zsh", cwd := "/",
    status := .stopped }

/-- A persisted snapshot entry for session "B". -/
def savedB : SavedSession :=
  { id := "pb", name := "B", group_id := none, shell := "zsh", cwd := "/",
    status := .running }

/-- A snapshot with one group and two saved sessions, in order A then B. -/
def snapshotAB : AppState :=
  { sessions := [savedA, savedB]
    groups := [{ id := "g1", name := "G1", collapsed := false, order := 0 }]
    active_session_id := some "pa" }

/-- A host that recreates every saved session successfully: the first create
returns descriptor `"a"`, later ones `"b"`. -/
def hostAB : ℕ → Except HostErr SessionInfo := fun k =>
  if k = 0 then
    Except.ok { id := "a", name := "A", group_id := some "g1", shell := "zsh", cwd := "/" }
  else
    Except.ok { id := "b", name := "B", group_id := none, shell := "zsh", cwd := "/" }

/-- A host whose first create succeeds with descriptor `"a"` and whose later
creates fail. -/
def hostAFailB : ℕ → Except HostErr SessionInfo := fun k =>
  if k = 0 then
    Except.ok { id := "a", name := "A", group_id := some "g1", shell := "zsh", cwd := "/" }
  else
    Except.error "B failed"

end Shelltree

namespace Shelltree

/-! ## Map model lemmas -/

theorem mapKeys_cons {α : Type} (p : String × α) (rest : List (String × α)) :
    mapKeys (p :: rest) = p.1 :: mapKeys rest := rfl

theorem mapHas_iff_keys {α : Type} {m : List (String × α)} {k : String} :
    mapHas m k = true ↔ k ∈ mapKeys m := by
  constructor
  · intro h
    rcases List.any_eq_true.mp h with ⟨p, hp, hpk⟩
    simp only [decide_eq_true_eq] at hpk
    exact List.mem_map.mpr ⟨p, hp, hpk⟩
  · intro h
    rcases List.mem_map.mp h with ⟨p, hp, hpk⟩
    exact List.any_eq_true.mpr ⟨p, hp, by simpa using hpk⟩

theorem mapKeys_mapSet {α : Type} {m : List (String × α)} {k : String} {v : α} :
    mapKeys (mapSet m k v) =
      if mapHas m k = true then mapKeys m else mapKeys m ++ [k] := by
  unfold mapSet
  by_cases h : mapHas m k = true
  · rw [if_pos h, if_pos (by simpa using h)]
    unfold mapKeys
    rw [List.map_map]
    apply List.map_congr_left
    intro p _
    by_cases hpk : p.1 = k
    · simp [hpk]
    · simp [hpk]
  · rw [if_neg h, if_neg (by simpa using h)]
    unfold mapKeys
    simp

theorem mapHas_mapSet {α : Type} {m : List (String × α)} {k a : String} {v : α} :
    mapHas (mapSet m k v) a = true ↔ (mapHas m a = true ∨ a = k) := by
  rw [mapHas_iff_keys, mapKeys_mapSet]
  by_cases h : mapHas m k = true
  · rw [if_pos h]
    constructor
    · intro ha
      exact Or.inl (mapHas_iff_keys.mpr ha)
    · rintro (ha | rfl)
      · exact mapHas_iff_keys.mp ha
      · exact mapHas_iff_keys.mp h
  · rw [if_neg h]
    rw [List.mem_append, List.mem_singleton]
    constructor
    · rintro (ha | rfl)
      · exact Or.inl (mapHas_iff_keys.mpr ha)
      · exact Or.inr rfl
    · rintro (ha | rfl)
      · exact Or.inl (mapHas_iff_keys.mp ha)
      · exact Or.inr rfl

theorem mapHas_mapDelete {α : Type} {m : List (String × α)} {k a : String} :
    mapHas (mapDelete m k) a = true ↔ (mapHas m a = true ∧ a ≠ k) := by
  constructor
  · intro h
    rcases List.any_eq_true.mp h with ⟨p, hp, hpk⟩
    simp only [decide_eq_true_eq] at hpk
    rcases List.mem_filter.mp hp with ⟨hmem, hne⟩
    simp only [decide_eq_true_eq] at hne
    exact ⟨List.any_eq_true.mpr ⟨p, hmem, by simpa using hpk⟩, hpk ▸ hne⟩
  · rintro ⟨h, hne⟩
    rcases List.any_eq_true.mp h with ⟨p, hp, hpk⟩
    simp only [decide_eq_true_eq] at hpk
    refine List.any_eq_true.mpr ⟨p, List.mem_filter.mpr ⟨hp, ?_⟩, by simpa using hpk⟩
    simpa using hpk ▸ hne

theorem mapGet_mem {α : Type} {m : List (String × α)} {k : String} {v : α}
    (h : mapGet m k = some v) : (k, v) ∈ m := by
  unfold mapGet at h
  rcases Option.map_eq_some'.mp h with ⟨p, hfind, hb⟩
  have hmem := List.mem_of_find?_eq_some hfind
  have hk := List.find?_some hfind
  simp only [decide_eq_true_eq] at hk
  have : p = (k, v) := by
    cases p
    simp only at hk hb
    simp [hk, hb]
  exact this ▸ hmem

theorem mapGet_isSome_of_has {α : Type} {m : List (String × α)} {k : String}
    (h : mapHas m k = true) : ∃ v, mapGet m k = some v := by
  rcases List.any_eq_true.mp h with ⟨p, hp, hpk⟩
  have h' : (List.find? (fun p => p.1 = k) m).isSome :=
    List.find?_isSome.mpr ⟨p, hp, hpk⟩
  rcases Option.isSome_iff_exists.mp h' with ⟨q, hq⟩
  exact ⟨q.2, by unfold mapGet; rw [hq]; rfl⟩

theorem mapGet_of_mem_nodup {α : Type} {m : List (String × α)} {k : String} {v : α}
    (hnd : (mapKeys m).Nodup) (hmem : (k, v) ∈ m) : mapGet m k = some v := by
  induction m with
  | nil => cases hmem
  | cons p rest ih =>
    rw [mapKeys_cons] at hnd
    have hp1 : p.1 ∉ mapKeys rest := (List.nodup_cons.mp hnd).1
    have hnd' : (mapKeys rest).Nodup := (List.nodup_cons.mp hnd).2
    rcases List.mem_cons.mp hmem with h | h
    · unfold mapGet
      rw [← h]
      rw [List.find?_cons_of_pos _ (by simp)]
      rfl
    · have hk : k ∈ mapKeys rest := List.mem_map.mpr ⟨(k, v), h, rfl⟩
      have hne : p.1 ≠ k := fun hc => hp1 (hc ▸ hk)
      unfold mapGet
      rw [List.find?_cons_of_neg _ (by simpa using hne)]
      exact ih hnd' h

theorem mapKeys_head_has {α : Type} {m : List (String × α)} {k : String} {rest : List String}
    (h : mapKeys m = k :: rest) : mapHas m k = true :=
  mapHas_iff_keys.mpr (h ▸ List.mem_cons_self k rest)

end Shelltree

namespace Shelltree

/-! ## C1: `removeFromSplit` -/

theorem removeFromSplit_eq (sessionId : String) (st : SessionStore) :
    removeFromSplit sessionId st =
      if (st.splitView.sessionIds.filter (fun id => id ≠ sessionId)).length < 2 then
        { st with
          splitView := { enabled := false, sessionIds := [], direction := .vertical }
          activeSessionId :=
            jsFirstOrNull (st.splitView.sessionIds.filter (fun id => id ≠ sessionId)) }
      else
        { st with
          splitView :=
            { st.splitView with
              sessionIds := st.splitView.sessionIds.filter (fun id => id ≠ sessionId) } } :=
  rfl

/-- C1 counterexample: in a state with the split view disabled (no members)
and an active selection, `removeFromSplit` leaves no remaining member yet sets
the active selection to `null`, refuting "preserves the prior active selection
if no members remain". -/
theorem removeFromSplit_preserve_cex :
    oneSessionStore.splitView.sessionIds.filter (fun id => id ≠ "b") = [] ∧
    oneSessionStore.activeSessionId = some "a" ∧
    (removeFromSplit "b" oneSessionStore).activeSessionId = none := by
  decide

/-- C1 (amended): `removeFromSplit(id)` removes `id` from the split
membership; when fewer than two members remain the split view transitions to
Disabled, and the active selection becomes the sole remaining id when exactly
one remains, but becomes `null` (rather than preserving the prior active
selection) when no members remain; with two or more remaining members the
membership is the filtered list and the active selection is untouched.  (The
hypothesis that no member is the empty string reflects host-allocated ids,
since the empty string is falsy in `newSessionIds[0] || null`.) -/
theorem removeFromSplit_spec (sessionId : String) (st : SessionStore)
    (hne : "" ∉ st.splitView.sessionIds) :
    sessionId ∉ (removeFromSplit sessionId st).splitView.sessionIds ∧
    ((st.splitView.sessionIds.filter (fun id => id ≠ sessionId)).length < 2 →
      (removeFromSplit sessionId st).splitView.enabled = false ∧
      (removeFromSplit sessionId st).splitView.sessionIds = []) ∧
    (∀ x, st.splitView.sessionIds.filter (fun id => id ≠ sessionId) = [x] →
      (removeFromSplit sessionId st).activeSessionId = some x) ∧
    (st.splitView.sessionIds.filter (fun id => id ≠ sessionId) = [] →
      (removeFromSplit sessionId st).activeSessionId = none) ∧
    (2 ≤ (st.splitView.sessionIds.filter (fun id => id ≠ sessionId)).length →
      (removeFromSplit sessionId st).splitView.sessionIds =
        st.splitView.sessionIds.filter (fun id => id ≠ sessionId) ∧
      (removeFromSplit sessionId st).activeSessionId = st.activeSessionId) := by
  rw [removeFromSplit_eq]
  by_cases hlen : (st.splitView.sessionIds.filter (fun id => id ≠ sessionId)).length < 2
  · rw [if_pos hlen]
    refine ⟨List.not_mem_nil _, fun _ => ⟨rfl, rfl⟩, ?_, ?_, fun h => absurd hlen (by omega)⟩
    · intro x hx
      have hxmem : x ∈ st.splitView.sessionIds := by
        have : x ∈ st.splitView.sessionIds.filter (fun id => id ≠ sessionId) := by
          rw [hx]; exact List.mem_singleton.mpr rfl
        exact (List.mem_filter.mp this).1
      have hxne : x ≠ "" := fun hcontra => hne (hcontra ▸ hxmem)
      show jsFirstOrNull (st.splitView.sessionIds.filter (fun id => id ≠ sessionId)) = some x
      rw [hx]
      simp [jsFirstOrNull, jsTruthy, hxne]
    · intro hnil
      show jsFirstOrNull (st.splitView.sessionIds.filter (fun id => id ≠ sessionId)) = none
      rw [hnil]
      rfl
  · rw [if_neg hlen]
    refine ⟨?_, fun h => absurd h hlen, ?_, ?_, fun _ => ⟨rfl, rfl⟩⟩
    · intro hmem
      have := (List.mem_filter.mp hmem).2
      simp at this
    · intro x hx
      rw [hx] at hlen
      simp at hlen
    · intro hnil
      rw [hnil] at hlen
      simp at hlen

/-- C1 witness: removing `"b"` from the enabled split `["a", "b"]` leaves the
sole member `"a"`, which becomes the active selection. -/
theorem removeFromSplit_spec_witness :
    (removeFromSplit "b" twoPaneStore).activeSessionId = some "a" :=
  (removeFromSplit_spec "b" twoPaneStore (by decide)).2.2.1 "a" (by decide)

end Shelltree

namespace Shelltree

/-! ## C2: split-view state-machine invariant -/

theorem deleteSessionLocal_eq (id : String) (st : SessionStore) :
    deleteSessionLocal id st =
      { st with
        sessions := mapDelete st.sessions id
        activeSessionId :=
          if st.activeSessionId = some id then
            match mapKeys (mapDelete st.sessions id) with
            | [] => none
            | k :: _ => some k
          else st.activeSessionId
        splitView :=
          if (st.splitView.sessionIds.filter (fun sid => sid ≠ id)).length < 2 then
            { enabled := false, sessionIds := [], direction := SplitDirection.vertical }
          else
            { st.splitView with
              sessionIds := st.splitView.sessionIds.filter (fun sid => sid ≠ id) } } :=
  rfl

theorem splitInv_applySplitOp (op : SplitOp) (st : SessionStore)
    (h : SplitInv st) : SplitInv (applySplitOp op st) := by
  cases op with
  | enable ids dir =>
    show SplitInv (enableSplitView ids dir st)
    unfold enableSplitView
    by_cases hlen : ids.length < 2
    · rwa [if_pos hlen]
    · rw [if_neg hlen]
      right
      refine ⟨rfl, ?_⟩
      show 2 ≤ ids.length
      omega
  | disable =>
    left
    exact ⟨rfl, rfl⟩
  | add sid =>
    show SplitInv (addToSplit sid st)
    unfold addToSplit
    split
    · exact h
    · split
      · rcases hact : st.activeSessionId with _ | activeId
        · exact h
        · show SplitInv
            (if jsTruthy activeId = true ∧ activeId ≠ sid then
              { sessions := st.sessions, groups := st.groups,
                activeSessionId := some activeId, isLoading := st.isLoading,
                splitView :=
                  { enabled := true, sessionIds := [activeId, sid],
                    direction := SplitDirection.vertical } }
             else st)
          split
          · right
            exact ⟨rfl, Nat.le_refl 2⟩
          · exact h
      · split
        · exact h
        · right
          rename_i henabled _
          rcases h with ⟨he, _⟩ | ⟨he, hlen2⟩
          · exact absurd he (by simpa using henabled)
          · refine ⟨he, ?_⟩
            show 2 ≤ (st.splitView.sessionIds ++ [sid]).length
            rw [List.length_append]
            omega
  | remove sid =>
    show SplitInv (removeFromSplit sid st)
    rw [removeFromSplit_eq]
    by_cases hlen : (st.splitView.sessionIds.filter (fun i => i ≠ sid)).length < 2
    · rw [if_pos hlen]
      left
      exact ⟨rfl, rfl⟩
    · rw [if_neg hlen]
      right
      constructor
      · show st.splitView.enabled = true
        rcases h with ⟨he, hids⟩ | ⟨he, _⟩
        · exfalso
          rw [hids] at hlen
          simp at hlen
        · exact he
      · show 2 ≤ (st.splitView.sessionIds.filter (fun id => id ≠ sid)).length
        omega
  | splitG gid dir =>
    show SplitInv (splitGroup gid dir st)
    show SplitInv
      (if (getSessionsInGroup st (some gid)).length < 2 then st
       else
        { st with
          splitView :=
            { enabled := true,
              sessionIds := (getSessionsInGroup st (some gid)).map (fun s => s.id),
              direction := dir }
          activeSessionId :=
            ((getSessionsInGroup st (some gid)).map (fun s => s.id)).head? })
    by_cases hlen : (getSessionsInGroup st (some gid)).length < 2
    · rwa [if_pos hlen]
    · rw [if_neg hlen]
      right
      refine ⟨rfl, ?_⟩
      show 2 ≤ ((getSessionsInGroup st (some gid)).map (fun s => s.id)).length
      rw [List.length_map]
      omega
  | delete sid =>
    show SplitInv (deleteSessionLocal sid st)
    rw [deleteSessionLocal_eq]
    by_cases hlen : (st.splitView.sessionIds.filter (fun i => i ≠ sid)).length < 2
    · rw [if_pos hlen]
      left
      exact ⟨rfl, rfl⟩
    · rw [if_neg hlen]
      right
      constructor
      · show st.splitView.enabled = true
        rcases h with ⟨he, hids⟩ | ⟨he, _⟩
        · exfalso
          rw [hids] at hlen
          simp at hlen
        · exact he
      · show 2 ≤ (st.splitView.sessionIds.filter (fun sid2 => sid2 ≠ sid)).length
        omega

/-- C2: along every sequence of split-view operations (`enableSplitView`,
`addToSplit`, `removeFromSplit`, `splitGroup`, `disableSplitView`, and a
host-confirmed `deleteSession`), the split membership has length 0 with the
enabled flag false, or length at least 2 with the enabled flag true; and
`enableSplitView` with fewer than two ids is a no-op leaving the whole state
unchanged. -/
theorem splitView_invariant (ops : List SplitOp) (st : SessionStore) (h : SplitInv st) :
    SplitInv (ops.foldl (fun s op => applySplitOp op s) st) ∧
    (∀ ids dir s, ids.length < 2 → enableSplitView ids dir s = s) := by
  constructor
  · induction ops generalizing st with
    | nil => exact h
    | cons op rest ih => exact ih (applySplitOp op st) (splitInv_applySplitOp op st h)
  · intro ids dir s hlen
    unfold enableSplitView
    rw [if_pos hlen]

/-- C2 witness: enabling a split on two ids and then removing one takes the
initial store through the state machine and lands in a state satisfying the
invariant. -/
theorem splitView_invariant_witness :
    SplitInv
      (([SplitOp.enable ["a", "b"] .vertical, SplitOp.remove "a"].foldl
        (fun s op => applySplitOp op s) initialStore)) ∧
    (∀ ids dir s, ids.length < 2 → enableSplitView ids dir s = s) :=
  splitView_invariant [SplitOp.enable ["a", "b"] .vertical, SplitOp.remove "a"]
    initialStore (Or.inl ⟨rfl, rfl⟩)

/-! ## C3: pane-count/pane-size consistency -/

theorem syncPaneSizes_length (oldIds newIds : List String) (sizes : List ℚ)
    (h : sizes.length = oldIds.length) :
    (syncPaneSizes oldIds newIds sizes).length = newIds.length := by
  unfold syncPaneSizes
  by_cases hl : newIds.length = oldIds.length
  · rw [if_pos hl, h, hl]
  · rw [if_neg hl]
    unfold resetPaneSizes
    rw [List.length_map]

theorem resizeDivider_length (sizes : List ℚ) (i : ℕ) (frac : ℚ) :
    (resizeDivider sizes i frac).length = sizes.length := by
  unfold resizeDivider
  rw [List.length_set, List.length_set]

theorem paneSizes_length_step (op : PaneOp) (v : SplitPanes)
    (h : v.paneSizes.length = v.store.splitView.sessionIds.length) :
    (applyPaneOp op v).paneSizes.length =
      (applyPaneOp op v).store.splitView.sessionIds.length := by
  cases op with
  | add id =>
    show (syncPaneSizes v.store.splitView.sessionIds
        (addToSplit id v.store).splitView.sessionIds v.paneSizes).length =
      (addToSplit id v.store).splitView.sessionIds.length
    exact syncPaneSizes_length _ _ _ h
  | remove id =>
    show (syncPaneSizes v.store.splitView.sessionIds
        (removeFromSplit id v.store).splitView.sessionIds v.paneSizes).length =
      (removeFromSplit id v.store).splitView.sessionIds.length
    exact syncPaneSizes_length _ _ _ h
  | resize i frac =>
    show (resizeDivider v.paneSizes i frac).length = v.store.splitView.sessionIds.length
    rw [resizeDivider_length]
    exact h

/-- C3: along every sequence of `addToSplit` / `removeFromSplit` calls (and
divider drags), the component pane-size array and the split membership keep
equal lengths, provided they start equal (the component initializes
`paneSizes` from `sessionIds`, so they start equal). -/
theorem paneSizes_length_invariant (ops : List PaneOp) (v : SplitPanes)
    (h : v.paneSizes.length = v.store.splitView.sessionIds.length) :
    (ops.foldl (fun s op => applyPaneOp op s) v).paneSizes.length =
      (ops.foldl (fun s op => applyPaneOp op s) v).store.splitView.sessionIds.length := by
  induction ops generalizing v with
  | nil => exact h
  | cons op rest ih => exact ih (applyPaneOp op v) (paneSizes_length_step op v h)

/-- C3 witness: starting from the two-pane store with equal-share sizes,
adding a third session and removing one keeps the lengths equal. -/
theorem paneSizes_length_invariant_witness :
    ([PaneOp.add "c", PaneOp.remove "a"].foldl (fun s op => applyPaneOp op s)
      { store := twoPaneStore,
        paneSizes := resetPaneSizes twoPaneStore.splitView.sessionIds }).paneSizes.length =
    ([PaneOp.add "c", PaneOp.remove "a"].foldl (fun s op => applyPaneOp op s)
      { store := twoPaneStore,
        paneSizes := resetPaneSizes twoPaneStore.splitView.sessionIds }).store.splitView.sessionIds.length :=
  paneSizes_length_invariant [PaneOp.add "c", PaneOp.remove "a"]
    { store := twoPaneStore,
      paneSizes := resetPaneSizes twoPaneStore.splitView.sessionIds } rfl

end Shelltree


namespace Shelltree

/-! ## C10: divider resize -/

theorem take_set_of_le {α : Type} (l : List α) (i n : ℕ) (a : α) (h : i ≤ n) :
    (l.set n a).take i = l.take i := by
  apply List.ext_getElem?
  intro j
  rw [List.getElem?_take, List.getElem?_take]
  by_cases hj : j < i
  · rw [if_pos hj, if_pos hj, List.getElem?_set, if_neg (by omega)]
  · rw [if_neg hj, if_neg hj]

theorem set_of_getElem?_eq {α : Type} {l : List α} {n : ℕ} {a : α}
    (h : l[n]? = some a) : l.set n a = l := by
  apply List.ext_getElem?
  intro j
  rw [List.getElem?_set]
  by_cases hj : n = j
  · subst hj
    rcases List.getElem?_eq_some.mp h with ⟨hlt, _⟩
    rw [if_pos rfl, if_pos hlt]
    exact h.symm
  · rw [if_neg hj]

theorem resizeDivider_eq (sizes : List ℚ) (i : ℕ) (frac : ℚ) :
    resizeDivider sizes i frac =
      (sizes.set i (max 10 (min 90 (frac * 100 - (sizes.take i).sum)))).set (i + 1)
        (max 10 (sizes.getD (i + 1) 0 -
          (max 10 (min 90 (frac * 100 - (sizes.take i).sum)) - sizes.getD i 0))) :=
  rfl

theorem resizeDivider_getElem_target (sizes : List ℚ) (i : ℕ) (frac : ℚ)
    (h : i + 1 < sizes.length) :
    (resizeDivider sizes i frac)[i]? =
      some (max 10 (min 90 (frac * 100 - (sizes.take i).sum))) := by
  rw [resizeDivider_eq, List.getElem?_set, if_neg (by omega), List.getElem?_set,
    if_pos rfl, if_pos (by omega)]

theorem resizeDivider_getElem_adjacent (sizes : List ℚ) (i : ℕ) (frac : ℚ)
    (h : i + 1 < sizes.length) :
    (resizeDivider sizes i frac)[i + 1]? =
      some (max 10 (sizes.getD (i + 1) 0 -
        (max 10 (min 90 (frac * 100 - (sizes.take i).sum)) - sizes.getD i 0))) := by
  rw [resizeDivider_eq, List.getElem?_set, if_pos rfl,
    if_pos (by rw [List.length_set]; omega)]

/-- C10: one divider-resize step sets the pane at `dividerIndex` to
`pointerFrac * 100` minus the cumulative size of the preceding panes, clamped
to `[10, 90]`; the adjacent pane absorbs the negated delta with an independent
floor of `10`; all other panes are untouched; and repeating the step with the
same pointer fraction leaves the sizes fixed (idempotence). -/
theorem resizeDivider_spec (sizes : List ℚ) (i : ℕ) (frac : ℚ)
    (h : i + 1 < sizes.length) :
    (resizeDivider sizes i frac).getD i 0 =
      max 10 (min 90 (frac * 100 - (sizes.take i).sum)) ∧
    (resizeDivider sizes i frac).getD (i + 1) 0 =
      max 10 (sizes.getD (i + 1) 0 -
        (max 10 (min 90 (frac * 100 - (sizes.take i).sum)) - sizes.getD i 0)) ∧
    (∀ j, j ≠ i → j ≠ i + 1 →
      (resizeDivider sizes i frac).getD j 0 = sizes.getD j 0) ∧
    resizeDivider (resizeDivider sizes i frac) i frac = resizeDivider sizes i frac := by
  have h1 := resizeDivider_getElem_target sizes i frac h
  have h2 := resizeDivider_getElem_adjacent sizes i frac h
  refine ⟨?_, ?_, ?_, ?_⟩
  · rw [List.getD_eq_getElem?_getD, h1]
    rfl
  · rw [List.getD_eq_getElem?_getD, h2]
    rfl
  · intro j hji hji1
    rw [List.getD_eq_getElem?_getD, List.getD_eq_getElem?_getD, resizeDivider_eq,
      List.getElem?_set, if_neg (fun hc => hji1 hc.symm),
      List.getElem?_set, if_neg (fun hc => hji hc.symm)]
  · have hcum : ((resizeDivider sizes i frac).take i).sum = (sizes.take i).sum := by
      rw [resizeDivider_eq, take_set_of_le _ _ _ _ (by omega),
        take_set_of_le _ _ _ _ (le_refl i)]
    have hgdi : (resizeDivider sizes i frac).getD i 0 =
        max 10 (min 90 (frac * 100 - (sizes.take i).sum)) := by
      rw [List.getD_eq_getElem?_getD, h1]
      rfl
    have hgdi1 : (resizeDivider sizes i frac).getD (i + 1) 0 =
        max 10 (sizes.getD (i + 1) 0 -
          (max 10 (min 90 (frac * 100 - (sizes.take i).sum)) - sizes.getD i 0)) := by
      rw [List.getD_eq_getElem?_getD, h2]
      rfl
    conv_lhs => rw [resizeDivider_eq]
    rw [hcum, hgdi, hgdi1, sub_self, sub_zero, ← max_assoc, max_self,
      set_of_getElem?_eq h1, set_of_getElem?_eq h2]

/-- C10 witness: on panes `[50, 50]` with the pointer at 30% of the extent,
the divider step yields `[30, 70]` and repeating it is a fixed point. -/
theorem resizeDivider_spec_witness :
    resizeDivider [(50 : ℚ), 50] 0 (3/10) = [30, 70] ∧
    resizeDivider (resizeDivider [(50 : ℚ), 50] 0 (3/10)) 0 (3/10) =
      resizeDivider [(50 : ℚ), 50] 0 (3/10) := by
  constructor
  · rw [resizeDivider_eq]
    norm_num [List.getD, min_def, max_def]
  · exact (resizeDivider_spec [(50 : ℚ), 50] 0 (3/10) (by norm_num)).2.2.2

end Shelltree

namespace Shelltree

/-! ## C8: `deleteSession` leaves no stale references -/

theorem mapGet_mapDelete_self {α : Type} {m : List (String × α)} {k : String} :
    mapGet (mapDelete m k) k = none := by
  unfold mapGet mapDelete
  rw [List.find?_eq_none.mpr]
  · rfl
  · intro p hp
    have := (List.mem_filter.mp hp).2
    simpa using this

theorem deleteSessionLocal_sessions (id : String) (st : SessionStore) :
    (deleteSessionLocal id st).sessions = mapDelete st.sessions id := rfl

theorem deleteSessionLocal_active (id : String) (st : SessionStore) :
    (deleteSessionLocal id st).activeSessionId =
      if st.activeSessionId = some id then
        match mapKeys (mapDelete st.sessions id) with
        | [] => none
        | k :: _ => some k
      else st.activeSessionId := rfl

theorem deleteSessionLocal_split (id : String) (st : SessionStore) :
    (deleteSessionLocal id st).splitView =
      if (st.splitView.sessionIds.filter (fun sid => sid ≠ id)).length < 2 then
        { enabled := false, sessionIds := [], direction := SplitDirection.vertical }
      else
        { st.splitView with
          sessionIds := st.splitView.sessionIds.filter (fun sid => sid ≠ id) } := rfl

/-- C8: a host-confirmed `deleteSession(id)` applies the local removal; the
record is gone; when the deleted session was active, the selection falls back
to a still-registered session whenever any session remains and to `null` only
when none remain; the id is removed from the split membership, and the split
view is disabled when fewer than two members are left. -/
theorem deleteSession_spec (id : String) (st : SessionStore) :
    deleteSession (Except.ok ()) id st = (deleteSessionLocal id st, Except.ok ()) ∧
    mapGet (deleteSessionLocal id st).sessions id = none ∧
    (st.activeSessionId = some id →
      ((deleteSessionLocal id st).sessions ≠ [] →
        ∃ k, (deleteSessionLocal id st).activeSessionId = some k ∧
          mapHas (deleteSessionLocal id st).sessions k = true) ∧
      ((deleteSessionLocal id st).sessions = [] →
        (deleteSessionLocal id st).activeSessionId = none)) ∧
    id ∉ (deleteSessionLocal id st).splitView.sessionIds ∧
    ((st.splitView.sessionIds.filter (fun sid => sid ≠ id)).length < 2 →
      (deleteSessionLocal id st).splitView.enabled = false ∧
      (deleteSessionLocal id st).splitView.sessionIds = []) ∧
    (2 ≤ (st.splitView.sessionIds.filter (fun sid => sid ≠ id)).length →
      (deleteSessionLocal id st).splitView.sessionIds =
        st.splitView.sessionIds.filter (fun sid => sid ≠ id)) := by
  refine ⟨rfl, ?_, ?_, ?_, ?_, ?_⟩
  · rw [deleteSessionLocal_sessions]
    exact mapGet_mapDelete_self
  · intro hact
    constructor
    · intro hne
      have hkeys : mapKeys (mapDelete st.sessions id) ≠ [] := by
        intro hc
        apply hne
        rw [deleteSessionLocal_sessions]
        cases hmd : mapDelete st.sessions id with
        | nil => rfl
        | cons p rest =>
          rw [hmd, mapKeys_cons] at hc
          cases hc
      cases hk : mapKeys (mapDelete st.sessions id) with
      | nil => exact absurd hk hkeys
      | cons k rest =>
        refine ⟨k, ?_, ?_⟩
        · rw [deleteSessionLocal_active, if_pos hact, hk]
        · rw [deleteSessionLocal_sessions]
          exact mapKeys_head_has hk
    · intro hnil
      rw [deleteSessionLocal_sessions] at hnil
      rw [deleteSessionLocal_active, if_pos hact, hnil]
      rfl
  · have hsplit := deleteSessionLocal_split id st
    by_cases hlen : (st.splitView.sessionIds.filter (fun sid => sid ≠ id)).length < 2
    · rw [if_pos hlen] at hsplit
      rw [hsplit]
      exact List.not_mem_nil id
    · rw [if_neg hlen] at hsplit
      rw [hsplit]
      intro hmem
      have := (List.mem_filter.mp hmem).2
      simp at this
  · intro hlen
    have hsplit := deleteSessionLocal_split id st
    rw [if_pos hlen] at hsplit
    rw [hsplit]
    exact ⟨rfl, rfl⟩
  · intro hlen
    have hsplit := deleteSessionLocal_split id st
    rw [if_neg (by omega)] at hsplit
    rw [hsplit]

/-- C8 witness: deleting the active session `"b"` while `"a"` remains makes a
remaining session active and removes the record. -/
theorem deleteSession_spec_witness :
    mapGet (deleteSessionLocal "b" twoPaneStore).sessions "b" = none ∧
    ∃ k, (deleteSessionLocal "b" twoPaneStore).activeSessionId = some k ∧
      mapHas (deleteSessionLocal "b" twoPaneStore).sessions k = true :=
  ⟨(deleteSession_spec "b" twoPaneStore).2.1,
    ((deleteSession_spec "b" twoPaneStore).2.2.1 (by decide)).1 (by decide)⟩

/-! ## C5: host-failure propagation -/

/-- C5 (amended): for every operation that awaits a host call before mutating
— `createSession`, `deleteSession`, `renameSession`, `setSessionGroup`,
`createGroup`, `renameGroup`, `toggleGroupCollapsed`, and `deleteGroup` with
respect to its own group-delete host call — a host rejection propagates to the
caller and the returned local state is exactly the input state (in particular
a failed `createSession` inserts no record); only `deleteGroup` can mutate
before an error, when a nested re-parent host call fails (see the
counterexample). -/
theorem hostFailure_state_unchanged :
    (∀ (e : HostErr) (st : SessionStore),
      createSession (Except.error e) st = (st, Except.error e)) ∧
    (∀ (e : HostErr) (id : String) (st : SessionStore),
      deleteSession (Except.error e) id st = (st, Except.error e)) ∧
    (∀ (e : HostErr) (id nm : String) (st : SessionStore),
      renameSession (Except.error e) id nm st = (st, Except.error e)) ∧
    (∀ (e : HostErr) (id : String) (gid : Option String) (st : SessionStore),
      setSessionGroup (Except.error e) id gid st = (st, Except.error e)) ∧
    (∀ (e : HostErr) (st : SessionStore),
      createGroup (Except.error e) st = (st, Except.error e)) ∧
    (∀ (e : HostErr) (id nm : String) (st : SessionStore),
      renameGroup (Except.error e) id nm st = (st, Except.error e)) ∧
    (∀ (e : HostErr) (id : String) (st : SessionStore),
      toggleGroupCollapsed (Except.error e) id st = (st, Except.error e)) ∧
    (∀ (e : HostErr) (oracle : String → Except HostErr Unit) (id : String) (st : SessionStore),
      deleteGroup (Except.error e) oracle id st = (st, Except.error e)) :=
  ⟨fun _ _ => rfl, fun _ _ _ => rfl, fun _ _ _ _ => rfl, fun _ _ _ _ => rfl,
   fun _ _ => rfl, fun _ _ _ _ => rfl, fun _ _ _ => rfl, fun _ _ _ _ => rfl⟩

/-- C5 counterexample: in `deleteGroup`, when the group-delete host call
succeeds, the first member re-parents, and the second re-parent host call
fails, the error propagates to the caller but the state is already partially
mutated: member `"a"` is ungrouped while `"b"` still references the group and
the group record is still present — refuting "the local state is left entirely
unchanged" for every failing operation. -/
theorem deleteGroup_partial_mutation_cex :
    (deleteGroup (Except.ok ())
      (fun m => if m = "a" then Except.ok () else Except.error "boom")
      "g" groupedStore).2 = Except.error "boom" ∧
    (deleteGroup (Except.ok ())
      (fun m => if m = "a" then Except.ok () else Except.error "boom")
      "g" groupedStore).1 ≠ groupedStore ∧
    mapGet (deleteGroup (Except.ok ())
      (fun m => if m = "a" then Except.ok () else Except.error "boom")
      "g" groupedStore).1.sessions "a" = some { sessionA with groupId := none } ∧
    mapGet (deleteGroup (Except.ok ())
      (fun m => if m = "a" then Except.ok () else Except.error "boom")
      "g" groupedStore).1.sessions "b" = some { sessionB with groupId := some "g" } ∧
    mapHas (deleteGroup (Except.ok ())
      (fun m => if m = "a" then Except.ok () else Except.error "boom")
      "g" groupedStore).1.groups "g" = true :=
  ⟨rfl, by decide, rfl, rfl, rfl⟩

end Shelltree

namespace Shelltree

/-! ## C4: `deleteGroup` re-parents before removing -/

theorem mapHas_true_of_get_some {α : Type} {m : List (String × α)} {k : String} {v : α}
    (h : mapGet m k = some v) : mapHas m k = true :=
  mapHas_iff_keys.mpr (List.mem_map.mpr ⟨(k, v), mapGet_mem h, rfl⟩)

theorem mapHas_false_of_get_none {α : Type} {m : List (String × α)} {k : String}
    (h : mapGet m k = none) : mapHas m k = false := by
  cases hb : mapHas m k
  · rfl
  · rcases mapGet_isSome_of_has hb with ⟨v, hv⟩
    rw [h] at hv
    cases hv

theorem eq_of_mem_keys_nodup {α : Type} {l : List (String × α)}
    (hnd : (mapKeys l).Nodup) {p q : String × α}
    (hp : p ∈ l) (hq : q ∈ l) (hk : p.1 = q.1) : p = q := by
  have h1 : mapGet l p.1 = some p.2 := mapGet_of_mem_nodup hnd hp
  have h2 : mapGet l q.1 = some q.2 := mapGet_of_mem_nodup hnd hq
  rw [hk, h2] at h1
  have h3 := Option.some.inj h1
  cases p
  cases q
  simp only at hk h3
  rw [hk, h3]

theorem deleteGroupLoop_allOk (ms : List String) (st : SessionStore)
    (hnd : (mapKeys st.sessions).Nodup) :
    deleteGroupLoop (fun _ => Except.ok ()) ms st =
      ({ st with
          sessions := st.sessions.map (fun kv =>
            if kv.1 ∈ ms then (kv.1, { kv.2 with groupId := none }) else kv) },
       Except.ok ()) := by
  induction ms generalizing st with
  | nil =>
    have hmap : st.sessions.map (fun kv =>
        if kv.1 ∈ ([] : List String) then (kv.1, { kv.2 with groupId := none }) else kv) =
        st.sessions := by
      simp
    show (st, Except.ok ()) = _
    rw [hmap]
  | cons m rest ih =>
    cases hget : mapGet st.sessions m with
    | none =>
      have hstep : setSessionGroup (Except.ok ()) m none st = (st, Except.ok ()) := by
        unfold setSessionGroup
        rw [hget]
      have h1 : deleteGroupLoop (fun _ => Except.ok ()) (m :: rest) st =
          deleteGroupLoop (fun _ => Except.ok ()) rest st := by
        show (match setSessionGroup (Except.ok ()) m none st with
          | (st', Except.ok _) => deleteGroupLoop (fun _ => Except.ok ()) rest st'
          | (st', Except.error e) => (st', Except.error e)) = _
        rw [hstep]
      have hmap : st.sessions.map (fun kv =>
          if kv.1 ∈ rest then (kv.1, { kv.2 with groupId := none }) else kv) =
          st.sessions.map (fun kv =>
            if kv.1 ∈ m :: rest then (kv.1, { kv.2 with groupId := none }) else kv) := by
        apply List.map_congr_left
        intro kv hkv
        have hne : kv.1 ≠ m := by
          intro hc
          have hhas : mapHas st.sessions m = true :=
            mapHas_iff_keys.mpr (List.mem_map.mpr ⟨kv, hkv, hc⟩)
          rw [mapHas_false_of_get_none hget] at hhas
          cases hhas
        simp [List.mem_cons, hne]
      rw [h1, ih st hnd, hmap]
    | some s =>
      have hhas : mapHas st.sessions m = true := mapHas_true_of_get_some hget
      have hstep : setSessionGroup (Except.ok ()) m none st =
          ({ st with sessions := mapSet st.sessions m { s with groupId := none } },
           Except.ok ()) := by
        unfold setSessionGroup
        rw [hget]
      have h1 : deleteGroupLoop (fun _ => Except.ok ()) (m :: rest) st =
          deleteGroupLoop (fun _ => Except.ok ())
            rest { st with sessions := mapSet st.sessions m { s with groupId := none } } := by
        show (match setSessionGroup (Except.ok ()) m none st with
          | (st', Except.ok _) => deleteGroupLoop (fun _ => Except.ok ()) rest st'
          | (st', Except.error e) => (st', Except.error e)) = _
        rw [hstep]
      have hnd' : (mapKeys
          (({ st with sessions := mapSet st.sessions m { s with groupId := none } } :
            SessionStore)).sessions).Nodup := by
        show (mapKeys (mapSet st.sessions m { s with groupId := none })).Nodup
        rw [mapKeys_mapSet, if_pos hhas]
        exact hnd
      have hmset : mapSet st.sessions m { s with groupId := none } =
          st.sessions.map (fun p => if p.1 = m then (m, { s with groupId := none }) else p) := by
        unfold mapSet
        rw [if_pos hhas]
      have hmap : (mapSet st.sessions m { s with groupId := none }).map (fun kv =>
          if kv.1 ∈ rest then (kv.1, { kv.2 with groupId := none }) else kv) =
          st.sessions.map (fun kv =>
            if kv.1 ∈ m :: rest then (kv.1, { kv.2 with groupId := none }) else kv) := by
        rw [hmset, List.map_map]
        apply List.map_congr_left
        intro kv hkv
        show (fun kv => if kv.1 ∈ rest then (kv.1, { kv.2 with groupId := none }) else kv)
            (if kv.1 = m then (m, { s with groupId := none }) else kv) = _
        by_cases hkm : kv.1 = m
        · have hgk : mapGet st.sessions kv.1 = some kv.2 := mapGet_of_mem_nodup hnd hkv
          rw [hkm, hget] at hgk
          have hs : s = kv.2 := Option.some.inj hgk
          subst hs
          by_cases hmr : m ∈ rest
          · simp [hkm, hmr, List.mem_cons]
          · simp [hkm, hmr, List.mem_cons]
        · by_cases hr : kv.1 ∈ rest
          · simp [hkm, hr, List.mem_cons]
          · simp [hkm, hr, List.mem_cons]
      rw [h1, ih _ hnd', hmap]

theorem countP_or_disjoint {α : Type} (p q : α → Bool) (l : List α)
    (h : ∀ x ∈ l, ¬(p x = true ∧ q x = true)) :
    l.countP (fun x => p x || q x) = l.countP p + l.countP q := by
  induction l with
  | nil => rfl
  | cons a t ih =>
    rw [List.countP_cons, List.countP_cons, List.countP_cons,
      ih (fun x hx => h x (List.mem_cons_of_mem a hx))]
    by_cases hp : p a = true
    · have hq : q a = false := by
        cases hqb : q a
        · rfl
        · exact absurd ⟨hp, hqb⟩ (h a (List.mem_cons_self a t))
      rw [hp, hq]
      simp
      omega
    · rw [Bool.not_eq_true] at hp
      rw [hp]
      simp
      omega

/-- C4: deleting a group (all host calls succeeding) first re-parents every
member session to ungrouped — after the re-parent loop the group map is still
untouched while no session references the group — and only then removes the
group; afterwards the group id resolves to nothing, zero sessions reference
it, and the count of ungrouped sessions has grown by exactly the number of
members. -/
theorem deleteGroup_spec (gid : String) (st : SessionStore)
    (hnd : (mapKeys st.sessions).Nodup) (hkm : sessionKeysMatch st = true) :
    (deleteGroupLoop (fun _ => Except.ok ())
      ((getSessionsInGroup st (some gid)).map (fun s => s.id)) st).1.groups = st.groups ∧
    (∀ kv ∈ (deleteGroupLoop (fun _ => Except.ok ())
      ((getSessionsInGroup st (some gid)).map (fun s => s.id)) st).1.sessions,
      kv.2.groupId ≠ some gid) ∧
    deleteGroup (Except.ok ()) (fun _ => Except.ok ()) gid st =
      ({ (deleteGroupLoop (fun _ => Except.ok ())
          ((getSessionsInGroup st (some gid)).map (fun s => s.id)) st).1 with
          groups := mapDelete (deleteGroupLoop (fun _ => Except.ok ())
            ((getSessionsInGroup st (some gid)).map (fun s => s.id)) st).1.groups gid },
       Except.ok ()) ∧
    mapGet (deleteGroup (Except.ok ()) (fun _ => Except.ok ()) gid st).1.groups gid = none ∧
    (∀ kv ∈ (deleteGroup (Except.ok ()) (fun _ => Except.ok ()) gid st).1.sessions,
      kv.2.groupId ≠ some gid) ∧
    (deleteGroup (Except.ok ()) (fun _ => Except.ok ()) gid st).1.sessions.countP
        (fun kv => kv.2.groupId = none) =
      st.sessions.countP (fun kv => kv.2.groupId = none) +
        (getSessionsInGroup st (some gid)).length := by
  have hloop := deleteGroupLoop_allOk
    ((getSessionsInGroup st (some gid)).map (fun s => s.id)) st hnd
  have hmem_iff : ∀ kv ∈ st.sessions,
      (kv.1 ∈ (getSessionsInGroup st (some gid)).map (fun s => s.id) ↔
        kv.2.groupId = some gid) := by
    intro kv hkv
    constructor
    · intro hmemb
      rcases List.mem_map.mp hmemb with ⟨s, hs, hsid⟩
      have hs' : s ∈ (mapValues st.sessions).filter
          (fun x => x.groupId = some gid) := hs
      rcases List.mem_filter.mp hs' with ⟨hsv, hsg⟩
      rcases List.mem_map.mp hsv with ⟨kv2, hkv2, hkv2v⟩
      have hkmatch : kv2.2.id = kv2.1 := by
        have := List.all_eq_true.mp hkm kv2 hkv2
        simpa using this
      have hkeq : kv2.1 = kv.1 := by
        rw [← hkmatch, hkv2v, hsid]
      have heq : kv2 = kv := eq_of_mem_keys_nodup hnd hkv2 hkv hkeq
      have hsg' : s.groupId = some gid := by simpa using hsg
      rw [← heq, hkv2v]
      exact hsg'
    · intro hg
      have hv : kv.2 ∈ mapValues st.sessions := List.mem_map.mpr ⟨kv, hkv, rfl⟩
      have hf : kv.2 ∈ (mapValues st.sessions).filter
          (fun x => x.groupId = some gid) :=
        List.mem_filter.mpr ⟨hv, by simpa using hg⟩
      have hkmatch : kv.2.id = kv.1 := by
        have := List.all_eq_true.mp hkm kv hkv
        simpa using this
      exact List.mem_map.mpr ⟨kv.2, hf, hkmatch⟩
  have hdg : deleteGroup (Except.ok ()) (fun _ => Except.ok ()) gid st =
      ({ { st with
            sessions := st.sessions.map (fun kv : String × Session =>
              if kv.1 ∈ (getSessionsInGroup st (some gid)).map (fun s : Session => s.id) then
                (kv.1, { kv.2 with groupId := none })
              else kv) } with
          groups := mapDelete st.groups gid },
       Except.ok ()) := by
    show (match deleteGroupLoop (fun _ => Except.ok ())
        ((getSessionsInGroup st (some gid)).map (fun s => s.id)) st with
      | (st', Except.ok _) =>
        ({ st' with groups := mapDelete st'.groups gid }, Except.ok ())
      | (st', Except.error e) => (st', Except.error e)) = _
    rw [hloop]
  have hcondmap : st.sessions.map (fun kv =>
      if kv.1 ∈ (getSessionsInGroup st (some gid)).map (fun s => s.id) then
        (kv.1, { kv.2 with groupId := none })
      else kv) =
      st.sessions.map (fun kv =>
        if kv.2.groupId = some gid then (kv.1, { kv.2 with groupId := none }) else kv) := by
    apply List.map_congr_left
    intro kv hkv
    by_cases hc : kv.2.groupId = some gid
    · rw [if_pos ((hmem_iff kv hkv).mpr hc), if_pos hc]
    · rw [if_neg (fun hm => hc ((hmem_iff kv hkv).mp hm)), if_neg hc]
  refine ⟨?_, ?_, ?_, ?_, ?_, ?_⟩
  · rw [hloop]
  · rw [hloop]
    show ∀ kv ∈ st.sessions.map (fun kv =>
      if kv.1 ∈ (getSessionsInGroup st (some gid)).map (fun s => s.id) then
        (kv.1, { kv.2 with groupId := none })
      else kv), kv.2.groupId ≠ some gid
    rw [hcondmap]
    intro kv hkv
    rcases List.mem_map.mp hkv with ⟨kv0, _, hG⟩
    by_cases hc : kv0.2.groupId = some gid
    · rw [if_pos hc] at hG
      rw [← hG]
      simp
    · rw [if_neg hc] at hG
      rw [← hG]
      exact hc
  · rw [hdg, hloop]
  · rw [hdg]
    exact mapGet_mapDelete_self
  · rw [hdg]
    show ∀ kv ∈ st.sessions.map (fun kv =>
      if kv.1 ∈ (getSessionsInGroup st (some gid)).map (fun s => s.id) then
        (kv.1, { kv.2 with groupId := none })
      else kv), kv.2.groupId ≠ some gid
    rw [hcondmap]
    intro kv hkv
    rcases List.mem_map.mp hkv with ⟨kv0, _, hG⟩
    by_cases hc : kv0.2.groupId = some gid
    · rw [if_pos hc] at hG
      rw [← hG]
      simp
    · rw [if_neg hc] at hG
      rw [← hG]
      exact hc
  · rw [hdg]
    show (st.sessions.map (fun kv =>
      if kv.1 ∈ (getSessionsInGroup st (some gid)).map (fun s => s.id) then
        (kv.1, { kv.2 with groupId := none })
      else kv)).countP (fun kv => kv.2.groupId = none) = _
    rw [hcondmap, List.countP_map]
    have hcomp : ((fun kv : String × Session => decide (kv.2.groupId = none)) ∘
        (fun kv => if kv.2.groupId = some gid then
          (kv.1, { kv.2 with groupId := none }) else kv)) =
        fun kv => (decide (kv.2.groupId = some gid) || decide (kv.2.groupId = none)) := by
      funext kv
      by_cases hc : kv.2.groupId = some gid
      · simp [hc]
      · simp [hc]
    rw [hcomp, countP_or_disjoint _ _ _ ?hdisj]
    case hdisj =>
      rintro kv _ ⟨h1, h2⟩
      simp only [decide_eq_true_eq] at h1 h2
      rw [h1] at h2
      cases h2
    rw [Nat.add_comm]
    congr 1
    show _ = ((st.sessions.map (fun p => p.2)).filter
      (fun s => decide (s.groupId = some gid))).length
    rw [← List.countP_eq_length_filter, List.countP_map]
    rfl

/-- C4 witness: deleting group `"g"` with two members from the grouped store
removes the group and raises the ungrouped count from 1 to 3. -/
theorem deleteGroup_spec_witness :
    mapGet (deleteGroup (Except.ok ()) (fun _ => Except.ok ()) "g"
      groupedStore).1.groups "g" = none ∧
    (deleteGroup (Except.ok ()) (fun _ => Except.ok ()) "g"
      groupedStore).1.sessions.countP (fun kv => kv.2.groupId = none) = 3 :=
  ⟨(deleteGroup_spec "g" groupedStore (by decide) (by decide)).2.2.2.1,
   ((deleteGroup_spec "g" groupedStore (by decide) (by decide)).2.2.2.2.2).trans (by decide)⟩

end Shelltree

namespace Shelltree

/-! ## C6/C7: restore protocol -/

theorem loadLayoutSessions_char (oracle : ℕ → Except HostErr SessionInfo) :
    ∀ (saved : List SavedSession) (k : ℕ) (st : SessionStore) (first : Option String),
    loadLayoutSessions oracle saved k st first =
      ({ st with
          sessions := (restoredEntries oracle k saved).foldl
            (fun m info => mapSet m info.id (sessionOfInfo info)) st.sessions },
       (restoredEntries oracle k saved).foldl
         (fun f info => updateFirstSessionId f info.id) first) := by
  intro saved
  induction saved with
  | nil =>
    intro k st first
    rfl
  | cons sv rest ih =>
    intro k st first
    show (match oracle k with
      | Except.error _ => loadLayoutSessions oracle rest (k + 1) st first
      | Except.ok info => loadLayoutSessions oracle rest (k + 1)
          { st with sessions := mapSet st.sessions info.id (sessionOfInfo info) }
          (updateFirstSessionId first info.id)) =
      ({ st with
          sessions := ((match oracle k with
            | Except.error _ => restoredEntries oracle (k + 1) rest
            | Except.ok info => info :: restoredEntries oracle (k + 1) rest) :
              List SessionInfo).foldl
            (fun m info => mapSet m info.id (sessionOfInfo info)) st.sessions },
       ((match oracle k with
          | Except.error _ => restoredEntries oracle (k + 1) rest
          | Except.ok info => info :: restoredEntries oracle (k + 1) rest) :
            List SessionInfo).foldl
         (fun f info => updateFirstSessionId f info.id) first)
    cases horacle : oracle k with
    | error e => exact ih (k + 1) st first
    | ok info =>
      exact ih (k + 1)
        { st with sessions := mapSet st.sessions info.id (sessionOfInfo info) }
        (updateFirstSessionId first info.id)

theorem foldl_mapSet_infos (infos : List SessionInfo) (m : List (String × Session))
    (hfresh : ∀ info ∈ infos, mapHas m info.id = false)
    (hnd : (infos.map (fun i => i.id)).Nodup) :
    infos.foldl (fun acc info => mapSet acc info.id (sessionOfInfo info)) m =
      m ++ infos.map (fun info => (info.id, sessionOfInfo info)) := by
  induction infos generalizing m with
  | nil => simp
  | cons info rest ih =>
    have hnd' : (info.id :: rest.map (fun i => i.id)).Nodup := by simpa using hnd
    show rest.foldl (fun acc i => mapSet acc i.id (sessionOfInfo i))
        (mapSet m info.id (sessionOfInfo info)) = _
    have hnotin : mapHas m info.id = false := hfresh info (List.mem_cons_self info rest)
    have hset : mapSet m info.id (sessionOfInfo info) =
        m ++ [(info.id, sessionOfInfo info)] := by
      unfold mapSet
      rw [if_neg (by simp [hnotin])]
    rw [hset, ih]
    · simp
    · intro i hi
      have h1 : mapHas m i.id = false := hfresh i (List.mem_cons_of_mem info hi)
      have h2 : info.id ≠ i.id := by
        intro hc
        exact (List.nodup_cons.mp hnd').1 (hc ▸ List.mem_map.mpr ⟨i, hi, rfl⟩)
      show mapHas (m ++ [(info.id, sessionOfInfo info)]) i.id = false
      unfold mapHas
      rw [List.any_append]
      have hm : m.any (fun p => p.1 = i.id) = false := h1
      rw [hm]
      simp [h2]
    · exact (List.nodup_cons.mp hnd').2

theorem foldl_mapSet_groups (gs : List SessionGroup) (m : List (String × SessionGroup))
    (hfresh : ∀ g ∈ gs, mapHas m g.id = false)
    (hnd : (gs.map (fun g => g.id)).Nodup) :
    gs.foldl (fun acc g => mapSet acc g.id g) m = m ++ gs.map (fun g => (g.id, g)) := by
  induction gs generalizing m with
  | nil => simp
  | cons g rest ih =>
    have hnd' : (g.id :: rest.map (fun x => x.id)).Nodup := by simpa using hnd
    show rest.foldl (fun acc x => mapSet acc x.id x) (mapSet m g.id g) = _
    have hnotin : mapHas m g.id = false := hfresh g (List.mem_cons_self g rest)
    have hset : mapSet m g.id g = m ++ [(g.id, g)] := by
      unfold mapSet
      rw [if_neg (by simp [hnotin])]
    rw [hset, ih]
    · simp
    · intro x hx
      have h1 : mapHas m x.id = false := hfresh x (List.mem_cons_of_mem g hx)
      have h2 : g.id ≠ x.id := by
        intro hc
        exact (List.nodup_cons.mp hnd').1 (hc ▸ List.mem_map.mpr ⟨x, hx, rfl⟩)
      show mapHas (m ++ [(g.id, g)]) x.id = false
      unfold mapHas
      rw [List.any_append]
      have hm : m.any (fun p => p.1 = x.id) = false := h1
      rw [hm]
      simp [h2]
    · exact (List.nodup_cons.mp hnd').2

theorem loadGroups_eq (gs : List SessionGroup)
    (hnd : (gs.map (fun g => g.id)).Nodup) :
    loadGroups gs = gs.map (fun g => (g.id, g)) := by
  unfold loadGroups
  rw [foldl_mapSet_groups gs [] (fun g _ => rfl) hnd, List.nil_append]

theorem foldl_updateFirst_some (infos : List SessionInfo) (s : String) (hs : s ≠ "") :
    infos.foldl (fun f info => updateFirstSessionId f info.id) (some s) = some s := by
  induction infos with
  | nil => rfl
  | cons info rest ih =>
    show rest.foldl (fun f i => updateFirstSessionId f i.id)
        (updateFirstSessionId (some s) info.id) = some s
    have hu : updateFirstSessionId (some s) info.id = some s := by
      unfold updateFirstSessionId
      simp [jsTruthy, hs]
    rw [hu]
    exact ih

theorem foldl_updateFirst_none (infos : List SessionInfo)
    (hne : ∀ info ∈ infos, info.id ≠ "") :
    infos.foldl (fun f info => updateFirstSessionId f info.id) none =
      infos.head?.map (fun i => i.id) := by
  cases infos with
  | nil => rfl
  | cons info rest =>
    show rest.foldl (fun f i => updateFirstSessionId f i.id)
        (updateFirstSessionId none info.id) = some info.id
    have hu : updateFirstSessionId none info.id = some info.id := rfl
    rw [hu]
    exact foldl_updateFirst_some rest info.id (hne info (List.mem_cons_self info rest))

theorem loadLayout_ok_some (appState : AppState)
    (oracle : ℕ → Except HostErr SessionInfo) (st : SessionStore) :
    loadLayout (Except.ok (some appState)) oracle st =
      { st with
        groups := loadGroups appState.groups
        sessions := (restoredEntries oracle 0 appState.sessions).foldl
          (fun m info => mapSet m info.id (sessionOfInfo info)) st.sessions
        activeSessionId := (restoredEntries oracle 0 appState.sessions).foldl
          (fun f info => updateFirstSessionId f info.id) none
        isLoading := false } := by
  show ({ (loadLayoutSessions oracle appState.sessions 0
      { st with isLoading := true, groups := loadGroups appState.groups } none).1 with
      activeSessionId := (loadLayoutSessions oracle appState.sessions 0
        { st with isLoading := true, groups := loadGroups appState.groups } none).2
      isLoading := false }) = _
  rw [loadLayoutSessions_char]

/-- C6: restoring a snapshot installs all persisted groups verbatim, then
recreates sessions in persisted order: the resulting registry is exactly the
host descriptors of the successfully recreated entries in order, every
restored session has status running regardless of the persisted status, and
the active selection is the id of the first successfully recreated entry.
(Hypotheses: the registry starts empty, as on mount; persisted group ids and
host-allocated ids are distinct and host ids nonempty.) -/
theorem loadLayout_restores (appState : AppState)
    (oracle : ℕ → Except HostErr SessionInfo) (st : SessionStore)
    (hempty : st.sessions = [])
    (hgnd : (appState.groups.map (fun g => g.id)).Nodup)
    (hsnd : ((restoredEntries oracle 0 appState.sessions).map (fun i => i.id)).Nodup)
    (hne : ∀ info ∈ restoredEntries oracle 0 appState.sessions, info.id ≠ "") :
    (loadLayout (Except.ok (some appState)) oracle st).groups =
      loadGroups appState.groups ∧
    (∀ g ∈ appState.groups,
      mapGet (loadLayout (Except.ok (some appState)) oracle st).groups g.id = some g) ∧
    (loadLayout (Except.ok (some appState)) oracle st).sessions =
      (restoredEntries oracle 0 appState.sessions).map
        (fun info => (info.id, sessionOfInfo info)) ∧
    (∀ kv ∈ (loadLayout (Except.ok (some appState)) oracle st).sessions,
      kv.2.status = SessionStatus.running) ∧
    (loadLayout (Except.ok (some appState)) oracle st).activeSessionId =
      ((restoredEntries oracle 0 appState.sessions).head?).map (fun i => i.id) ∧
    (loadLayout (Except.ok (some appState)) oracle st).isLoading = false := by
  have hL := loadLayout_ok_some appState oracle st
  have hsess : (loadLayout (Except.ok (some appState)) oracle st).sessions =
      (restoredEntries oracle 0 appState.sessions).map
        (fun info => (info.id, sessionOfInfo info)) := by
    rw [hL]
    show (restoredEntries oracle 0 appState.sessions).foldl
        (fun m info => mapSet m info.id (sessionOfInfo info)) st.sessions = _
    rw [hempty]
    rw [foldl_mapSet_infos (restoredEntries oracle 0 appState.sessions) []
      (fun info _ => rfl) hsnd, List.nil_append]
  refine ⟨?_, ?_, hsess, ?_, ?_, ?_⟩
  · rw [hL]
  · intro g hg
    rw [hL]
    show mapGet (loadGroups appState.groups) g.id = some g
    rw [loadGroups_eq appState.groups hgnd]
    apply mapGet_of_mem_nodup
    · show (mapKeys (appState.groups.map (fun g => (g.id, g)))).Nodup
      unfold mapKeys
      rw [List.map_map]
      exact hgnd
    · exact List.mem_map.mpr ⟨g, hg, rfl⟩
  · intro kv hkv
    rw [hsess] at hkv
    rcases List.mem_map.mp hkv with ⟨info, _, hinfo⟩
    rw [← hinfo]
    rfl
  · rw [hL]
    show (restoredEntries oracle 0 appState.sessions).foldl
        (fun f info => updateFirstSessionId f info.id) none = _
    exact foldl_updateFirst_none _ hne
  · rw [hL]

/-- C6 witness: restoring the two-entry snapshot with an all-success host
yields session "a" (first recreated) active, and both restored sessions
running. -/
theorem loadLayout_restores_witness :
    (loadLayout (Except.ok (some snapshotAB)) hostAB initialStore).activeSessionId =
      some "a" ∧
    (∀ kv ∈ (loadLayout (Except.ok (some snapshotAB)) hostAB initialStore).sessions,
      kv.2.status = SessionStatus.running) :=
  ⟨((loadLayout_restores snapshotAB hostAB initialStore rfl (by decide) (by decide)
      (by decide)).2.2.2.2.1).trans (by decide),
   (loadLayout_restores snapshotAB hostAB initialStore rfl (by decide) (by decide)
      (by decide)).2.2.2.1⟩

theorem mem_restoredEntries (oracle : ℕ → Except HostErr SessionInfo) :
    ∀ (saved : List SavedSession) (base j : ℕ) (info : SessionInfo),
    j < saved.length → oracle (base + j) = Except.ok info →
    info ∈ restoredEntries oracle base saved := by
  intro saved
  induction saved with
  | nil =>
    intro base j info hj _
    simp at hj
  | cons sv rest ih =>
    intro base j info hj hok
    cases j with
    | zero =>
      rw [Nat.add_zero] at hok
      have hre : restoredEntries oracle base (sv :: rest) =
          info :: restoredEntries oracle (base + 1) rest := by
        show (match oracle base with
          | Except.error _ => restoredEntries oracle (base + 1) rest
          | Except.ok i => i :: restoredEntries oracle (base + 1) rest) = _
        rw [hok]
      rw [hre]
      exact List.mem_cons_self info _
    | succ j' =>
      have hok' : oracle ((base + 1) + j') = Except.ok info := by
        rw [show (base + 1) + j' = base + (j' + 1) from by omega]
        exact hok
      have hmem := ih (base + 1) j' info (by simpa using hj) hok'
      cases horacle : oracle base with
      | error e =>
        have hre : restoredEntries oracle base (sv :: rest) =
            restoredEntries oracle (base + 1) rest := by
          show (match oracle base with
            | Except.error _ => restoredEntries oracle (base + 1) rest
            | Except.ok i => i :: restoredEntries oracle (base + 1) rest) = _
          rw [horacle]
        rw [hre]
        exact hmem
      | ok i =>
        have hre : restoredEntries oracle base (sv :: rest) =
            i :: restoredEntries oracle (base + 1) rest := by
          show (match oracle base with
            | Except.error _ => restoredEntries oracle (base + 1) rest
            | Except.ok i => i :: restoredEntries oracle (base + 1) rest) = _
          rw [horacle]
        rw [hre]
        exact List.mem_cons_of_mem i hmem

theorem mapHas_foldl_mono (infos : List SessionInfo) (m : List (String × Session))
    (k : String) (h : mapHas m k = true) :
    mapHas (infos.foldl (fun acc i => mapSet acc i.id (sessionOfInfo i)) m) k = true := by
  induction infos generalizing m with
  | nil => exact h
  | cons i rest ih =>
    show mapHas (rest.foldl (fun acc x => mapSet acc x.id (sessionOfInfo x))
      (mapSet m i.id (sessionOfInfo i))) k = true
    exact ih _ (mapHas_mapSet.mpr (Or.inl h))

theorem mapHas_foldl_mem (infos : List SessionInfo) (m : List (String × Session))
    (info : SessionInfo) (h : info ∈ infos) :
    mapHas (infos.foldl (fun acc i => mapSet acc i.id (sessionOfInfo i)) m)
      info.id = true := by
  induction infos generalizing m with
  | nil => cases h
  | cons i rest ih =>
    show mapHas (rest.foldl (fun acc x => mapSet acc x.id (sessionOfInfo x))
      (mapSet m i.id (sessionOfInfo i))) info.id = true
    rcases List.mem_cons.mp h with heq | hmem
    · rw [heq]
      exact mapHas_foldl_mono rest _ i.id (mapHas_mapSet.mpr (Or.inr rfl))
    · exact ih _ hmem

/-- C7: `loadLayout` never lets a host failure escape: a missing snapshot and
a failed snapshot fetch both complete as no-ops that only clear the loading
flag (on the initial store this means an empty registry), and an individual
recreation failure is skipped without affecting the others — every entry whose
host create succeeds, earlier or later than any failing entry, is present in
the resulting registry. -/
theorem loadLayout_error_isolation (appState : AppState)
    (oracle : ℕ → Except HostErr SessionInfo) (st : SessionStore) (e : HostErr) :
    loadLayout (Except.ok none) oracle st = { st with isLoading := false } ∧
    loadLayout (Except.error e) oracle st = { st with isLoading := false } ∧
    (loadLayout (Except.ok none) oracle initialStore).sessions = [] ∧
    (∀ k info, k < appState.sessions.length → oracle k = Except.ok info →
      mapHas (loadLayout (Except.ok (some appState)) oracle st).sessions
        info.id = true) := by
  refine ⟨rfl, rfl, rfl, ?_⟩
  intro k info hk hok
  have hsess : (loadLayout (Except.ok (some appState)) oracle st).sessions =
      (restoredEntries oracle 0 appState.sessions).foldl
        (fun m i => mapSet m i.id (sessionOfInfo i)) st.sessions := by
    rw [loadLayout_ok_some]
  rw [hsess]
  apply mapHas_foldl_mem
  apply mem_restoredEntries oracle appState.sessions 0 k info hk
  rw [Nat.zero_add]
  exact hok

/-- C7 witness: with a host that fails every create after the first, a
missing snapshot is a no-op, and restoring the two-entry snapshot still
registers session "a" while entry "B" is skipped. -/
theorem loadLayout_error_isolation_witness :
    loadLayout (Except.ok none) hostAFailB initialStore =
      { initialStore with isLoading := false } ∧
    mapHas (loadLayout (Except.ok (some snapshotAB)) hostAFailB
      initialStore).sessions "a" = true :=
  ⟨(loadLayout_error_isolation snapshotAB hostAFailB initialStore "err").1,
   (loadLayout_error_isolation snapshotAB hostAFailB initialStore "err").2.2.2 0
     { id := "a", name := "A", group_id := some "g1", shell := "zsh", cwd := "/" }
     (by decide) rfl⟩

end Shelltree

namespace Shelltree

/-! ## C9: active selection stays registered -/

theorem activeOk_of_none {st : SessionStore} (h : st.activeSessionId = none) :
    activeOk st = true := by
  unfold activeOk
  rw [h]

theorem activeOk_of_has {st : SessionStore} {s : String}
    (h : st.activeSessionId = some s) (hh : mapHas st.sessions s = true) :
    activeOk st = true := by
  unfold activeOk
  rw [h]
  exact hh

theorem activeOk_elim {st : SessionStore} (h : activeOk st = true) :
    st.activeSessionId = none ∨
    ∃ s, st.activeSessionId = some s ∧ mapHas st.sessions s = true := by
  unfold activeOk at h
  cases hact : st.activeSessionId with
  | none => exact Or.inl rfl
  | some s =>
    rw [hact] at h
    exact Or.inr ⟨s, rfl, h⟩

theorem keysMatch_get_id {m : List (String × Session)} {k : String} {s : Session}
    (hm : m.all (fun kv => kv.2.id = kv.1) = true)
    (h : mapGet m k = some s) : s.id = k := by
  have := List.all_eq_true.mp hm (k, s) (mapGet_mem h)
  simpa using this

theorem all_keysMatch_mapSet {m : List (String × Session)} {k : String} {v : Session}
    (hm : m.all (fun kv => kv.2.id = kv.1) = true) (hv : v.id = k) :
    (mapSet m k v).all (fun kv => kv.2.id = kv.1) = true := by
  unfold mapSet
  by_cases hh : mapHas m k = true
  · rw [if_pos (by simpa using hh)]
    rw [List.all_eq_true] at hm ⊢
    intro kv hkv
    rcases List.mem_map.mp hkv with ⟨p, hp, hpe⟩
    by_cases hpk : p.1 = k
    · rw [if_pos hpk] at hpe
      rw [← hpe]
      simpa using hv
    · rw [if_neg hpk] at hpe
      rw [← hpe]
      exact hm p hp
  · rw [if_neg (by simpa using hh)]
    rw [List.all_eq_true] at hm ⊢
    intro kv hkv
    rcases List.mem_append.mp hkv with hmem | hmem
    · exact hm kv hmem
    · rw [List.mem_singleton.mp hmem]
      simpa using hv

theorem mapHas_mapSet_of_has {α : Type} {m : List (String × α)} {k a : String} {v : α}
    (h : mapHas m k = true) : mapHas (mapSet m k v) a = mapHas m a := by
  have hkeys : mapKeys (mapSet m k v) = mapKeys m := by
    rw [mapKeys_mapSet, if_pos h]
  cases hb : mapHas m a
  · cases hb2 : mapHas (mapSet m k v) a
    · rfl
    · exfalso
      have hmem := mapHas_iff_keys.mp hb2
      rw [hkeys] at hmem
      rw [mapHas_iff_keys.mpr hmem] at hb
      cases hb
  · exact mapHas_iff_keys.mpr (hkeys ▸ mapHas_iff_keys.mp hb)

theorem registryInv_of_fields {st st' : SessionStore}
    (ha : st'.activeSessionId = st.activeSessionId)
    (hsp : st'.splitView.sessionIds = st.splitView.sessionIds)
    (hh : ∀ a, mapHas st'.sessions a = mapHas st.sessions a)
    (hk : sessionKeysMatch st' = true)
    (h : RegistryInv st) : RegistryInv st' := by
  rcases h with ⟨h1, h2, _⟩
  refine ⟨?_, ?_, hk⟩
  · rcases activeOk_elim h1 with hn | ⟨a, hact, hhas⟩
    · exact activeOk_of_none (ha.trans hn)
    · exact activeOk_of_has (ha.trans hact) ((hh a).trans hhas)
  · unfold splitIdsOk at h2 ⊢
    rw [hsp, List.all_eq_true]
    intro i hi
    rw [hh i]
    exact List.all_eq_true.mp h2 i hi

theorem registryInv_congr {st st' : SessionStore}
    (hs : st'.sessions = st.sessions)
    (ha : st'.activeSessionId = st.activeSessionId)
    (hsp : st'.splitView.sessionIds = st.splitView.sessionIds)
    (h : RegistryInv st) : RegistryInv st' :=
  registryInv_of_fields ha hsp (fun a => by rw [hs])
    (by unfold sessionKeysMatch; rw [hs]; exact h.2.2) h

theorem registryInv_sessionUpdate {st : SessionStore} {k : String} {s v : Session}
    (h : RegistryInv st) (hget : mapGet st.sessions k = some s) (hid : v.id = s.id) :
    RegistryInv { st with sessions := mapSet st.sessions k v } := by
  have hhask : mapHas st.sessions k = true := mapHas_true_of_get_some hget
  refine @registryInv_of_fields st { st with sessions := mapSet st.sessions k v }
    rfl rfl ?_ ?_ h
  · intro a
    show mapHas (mapSet st.sessions k v) a = mapHas st.sessions a
    exact mapHas_mapSet_of_has hhask
  · show (mapSet st.sessions k v).all (fun kv => kv.2.id = kv.1) = true
    exact all_keysMatch_mapSet h.2.2 (hid.trans (keysMatch_get_id h.2.2 hget))

theorem setSessionGroup_ok_none (u : Unit) (m : String) (gid : Option String)
    (st : SessionStore) (hget : mapGet st.sessions m = none) :
    setSessionGroup (Except.ok u) m gid st = (st, Except.ok ()) := by
  unfold setSessionGroup
  rw [hget]

theorem setSessionGroup_ok_some (u : Unit) (m : String) (gid : Option String)
    (st : SessionStore) (s : Session) (hget : mapGet st.sessions m = some s) :
    setSessionGroup (Except.ok u) m gid st =
      ({ st with sessions := mapSet st.sessions m { s with groupId := gid } },
       Except.ok ()) := by
  unfold setSessionGroup
  rw [hget]

theorem deleteGroupLoop_fields (oracle : String → Except HostErr Unit) :
    ∀ (ms : List String) (st : SessionStore),
    (deleteGroupLoop oracle ms st).1.activeSessionId = st.activeSessionId ∧
    (deleteGroupLoop oracle ms st).1.splitView = st.splitView ∧
    (deleteGroupLoop oracle ms st).1.groups = st.groups ∧
    (∀ a, mapHas (deleteGroupLoop oracle ms st).1.sessions a = mapHas st.sessions a) ∧
    (sessionKeysMatch st = true →
      sessionKeysMatch (deleteGroupLoop oracle ms st).1 = true) := by
  intro ms
  induction ms with
  | nil =>
    intro st
    exact ⟨rfl, rfl, rfl, fun a => rfl, fun h => h⟩
  | cons m rest ih =>
    intro st
    cases horacle : oracle m with
    | error e =>
      have hloop : deleteGroupLoop oracle (m :: rest) st = (st, Except.error e) := by
        show (match setSessionGroup (oracle m) m none st with
          | (st', Except.ok _) => deleteGroupLoop oracle rest st'
          | (st', Except.error e) => (st', Except.error e)) = _
        rw [horacle]
        rfl
      rw [hloop]
      exact ⟨rfl, rfl, rfl, fun a => rfl, fun h => h⟩
    | ok u =>
      cases hget : mapGet st.sessions m with
      | none =>
        have hloop : deleteGroupLoop oracle (m :: rest) st =
            deleteGroupLoop oracle rest st := by
          show (match setSessionGroup (oracle m) m none st with
            | (st', Except.ok _) => deleteGroupLoop oracle rest st'
            | (st', Except.error e) => (st', Except.error e)) = _
          rw [horacle, setSessionGroup_ok_none u m none st hget]
        rw [hloop]
        exact ih st
      | some s =>
        have hloop : deleteGroupLoop oracle (m :: rest) st =
            deleteGroupLoop oracle rest
              { st with sessions := mapSet st.sessions m { s with groupId := none } } := by
          show (match setSessionGroup (oracle m) m none st with
            | (st', Except.ok _) => deleteGroupLoop oracle rest st'
            | (st', Except.error e) => (st', Except.error e)) = _
          rw [horacle, setSessionGroup_ok_some u m none st s hget]
        rw [hloop]
        rcases ih { st with sessions := mapSet st.sessions m { s with groupId := none } }
          with ⟨ha, hsp, hg, hh, hk⟩
        have hhask : mapHas st.sessions m = true := mapHas_true_of_get_some hget
        refine ⟨ha, hsp, hg, ?_, ?_⟩
        · intro a
          rw [hh a]
          show mapHas (mapSet st.sessions m { s with groupId := none }) a =
            mapHas st.sessions a
          exact mapHas_mapSet_of_has hhask
        · intro h0
          apply hk
          show (mapSet st.sessions m { s with groupId := none }).all
            (fun kv => kv.2.id = kv.1) = true
          exact all_keysMatch_mapSet h0
            ((rfl : ({ s with groupId := none } : Session).id = s.id).trans
              (@keysMatch_get_id st.sessions m s h0 hget))

theorem keysMatch_foldl_infos (infos : List SessionInfo) (m : List (String × Session))
    (h : m.all (fun kv => kv.2.id = kv.1) = true) :
    (infos.foldl (fun acc i => mapSet acc i.id (sessionOfInfo i)) m).all
      (fun kv => kv.2.id = kv.1) = true := by
  induction infos generalizing m with
  | nil => exact h
  | cons i rest ih =>
    show (rest.foldl (fun acc x => mapSet acc x.id (sessionOfInfo x))
      (mapSet m i.id (sessionOfInfo i))).all (fun kv => kv.2.id = kv.1) = true
    exact ih _ (all_keysMatch_mapSet h rfl)

theorem foldl_updateFirst_cases (infos : List SessionInfo) (first : Option String) :
    infos.foldl (fun f i => updateFirstSessionId f i.id) first = first ∨
    ∃ info ∈ infos,
      infos.foldl (fun f i => updateFirstSessionId f i.id) first = some info.id := by
  induction infos generalizing first with
  | nil => exact Or.inl rfl
  | cons i rest ih =>
    rcases ih (updateFirstSessionId first i.id) with h | ⟨info, hm, he⟩
    · cases first with
      | none =>
        right
        refine ⟨i, List.mem_cons_self i rest, ?_⟩
        show rest.foldl (fun f x => updateFirstSessionId f x.id)
          (updateFirstSessionId none i.id) = some i.id
        rw [h]
        rfl
      | some s =>
        by_cases hs : jsTruthy s = true
        · left
          show rest.foldl (fun f x => updateFirstSessionId f x.id)
            (updateFirstSessionId (some s) i.id) = some s
          rw [h]
          show (if jsTruthy s = true then some s else some i.id) = some s
          rw [if_pos hs]
        · right
          refine ⟨i, List.mem_cons_self i rest, ?_⟩
          show rest.foldl (fun f x => updateFirstSessionId f x.id)
            (updateFirstSessionId (some s) i.id) = some i.id
          rw [h]
          show (if jsTruthy s = true then some s else some i.id) = some i.id
          rw [if_neg hs]
    · right
      refine ⟨info, List.mem_cons_of_mem i hm, ?_⟩
      show rest.foldl (fun f x => updateFirstSessionId f x.id)
        (updateFirstSessionId first i.id) = some info.id
      exact he

end Shelltree

namespace Shelltree

theorem splitIdsOk_elim {st : SessionStore} (h : splitIdsOk st = true) :
    ∀ i ∈ st.splitView.sessionIds, mapHas st.sessions i = true := by
  unfold splitIdsOk at h
  exact fun i hi => List.all_eq_true.mp h i hi

theorem splitIdsOk_intro {st : SessionStore}
    (h : ∀ i ∈ st.splitView.sessionIds, mapHas st.sessions i = true) :
    splitIdsOk st = true := by
  unfold splitIdsOk
  exact List.all_eq_true.mpr h

theorem mem_of_head?_eq {α : Type} {l : List α} {a : α}
    (h : l.head? = some a) : a ∈ l := by
  cases l with
  | nil => cases h
  | cons x t =>
    rw [List.head?_cons] at h
    have hxa : x = a := Option.some.inj h
    subst hxa
    exact List.mem_cons_self x t

/-- C9 (amended): the active selection is null or a registered session key —
and every split member is registered and records carry their own key as id —
after every store operation, provided `setActiveSession` is invoked only with
null or a registered id and `enableSplitView` only with registered ids; the
store itself performs no such validation (see the counterexample). -/
theorem registryInv_preserved (op : StoreOp) (st : SessionStore)
    (hInv : RegistryInv st) (hValid : validOp op st) :
    activeOk (applyStoreOp op st) = true ∧ RegistryInv (applyStoreOp op st) := by
  suffices h : RegistryInv (applyStoreOp op st) from ⟨h.1, h⟩
  cases op with
  | create hostRes =>
    cases hostRes with
    | error e => exact hInv
    | ok info =>
      show RegistryInv { st with
        sessions := mapSet st.sessions (sessionOfInfo info).id (sessionOfInfo info)
        activeSessionId := some (sessionOfInfo info).id }
      refine ⟨?_, ?_, ?_⟩
      · exact activeOk_of_has rfl (mapHas_mapSet.mpr (Or.inr rfl))
      · apply splitIdsOk_intro
        intro i hi
        exact mapHas_mapSet.mpr (Or.inl (splitIdsOk_elim hInv.2.1 i hi))
      · show (mapSet st.sessions (sessionOfInfo info).id (sessionOfInfo info)).all
          (fun kv => kv.2.id = kv.1) = true
        exact all_keysMatch_mapSet hInv.2.2 rfl
  | deleteS hostRes id =>
    cases hostRes with
    | error e => exact hInv
    | ok u =>
      show RegistryInv (deleteSessionLocal id st)
      refine ⟨?_, ?_, ?_⟩
      · by_cases hact : st.activeSessionId = some id
        · cases hk : mapKeys (mapDelete st.sessions id) with
          | nil =>
            apply activeOk_of_none
            rw [deleteSessionLocal_active, if_pos hact, hk]
          | cons k rest =>
            refine @activeOk_of_has (deleteSessionLocal id st) k ?_ ?_
            · rw [deleteSessionLocal_active, if_pos hact, hk]
            · rw [deleteSessionLocal_sessions]
              exact mapKeys_head_has hk
        · rcases activeOk_elim hInv.1 with hn | ⟨a, ha, hha⟩
          · apply activeOk_of_none
            rw [deleteSessionLocal_active, if_neg hact, hn]
          · have hne : a ≠ id := fun hc => hact (by rw [ha, hc])
            refine @activeOk_of_has (deleteSessionLocal id st) a ?_ ?_
            · rw [deleteSessionLocal_active, if_neg hact, ha]
            · rw [deleteSessionLocal_sessions]
              exact mapHas_mapDelete.mpr ⟨hha, hne⟩
      · apply splitIdsOk_intro
        intro i hi
        rw [deleteSessionLocal_sessions]
        have hsplit := deleteSessionLocal_split id st
        by_cases hlen :
            (st.splitView.sessionIds.filter (fun sid => sid ≠ id)).length < 2
        · rw [if_pos hlen] at hsplit
          rw [hsplit] at hi
          exact absurd hi (List.not_mem_nil i)
        · rw [if_neg hlen] at hsplit
          rw [hsplit] at hi
          have hi' : i ∈ st.splitView.sessionIds.filter (fun sid => sid ≠ id) := hi
          rcases List.mem_filter.mp hi' with ⟨hmem, hneq⟩
          exact mapHas_mapDelete.mpr
            ⟨splitIdsOk_elim hInv.2.1 i hmem, by simpa using hneq⟩
      · show (mapDelete st.sessions id).all (fun kv => kv.2.id = kv.1) = true
        rw [List.all_eq_true]
        intro kv hkv
        exact List.all_eq_true.mp hInv.2.2 kv (List.mem_filter.mp hkv).1
  | rename hostRes id nm =>
    cases hostRes with
    | error e => exact hInv
    | ok u =>
      show RegistryInv ((renameSession (Except.ok u) id nm st).1)
      cases hget : mapGet st.sessions id with
      | none =>
        have hr : renameSession (Except.ok u) id nm st = (st, Except.ok ()) := by
          unfold renameSession
          rw [hget]
        rw [hr]
        exact hInv
      | some s =>
        have hr : renameSession (Except.ok u) id nm st =
            ({ st with sessions := mapSet st.sessions id { s with name := nm } },
             Except.ok ()) := by
          unfold renameSession
          rw [hget]
        rw [hr]
        exact registryInv_sessionUpdate hInv hget rfl
  | setActive id =>
    show RegistryInv (setActiveSession id st)
    cases id with
    | none => exact ⟨activeOk_of_none rfl, hInv.2.1, hInv.2.2⟩
    | some a => exact ⟨activeOk_of_has rfl hValid, hInv.2.1, hInv.2.2⟩
  | setStatus id status =>
    show RegistryInv (updateSessionStatus id status st)
    cases hget : mapGet st.sessions id with
    | none =>
      have hr : updateSessionStatus id status st = st := by
        unfold updateSessionStatus
        rw [hget]
      rw [hr]
      exact hInv
    | some s =>
      have hr : updateSessionStatus id status st =
          { st with sessions := mapSet st.sessions id { s with status := status } } := by
        unfold updateSessionStatus
        rw [hget]
      rw [hr]
      exact registryInv_sessionUpdate hInv hget rfl
  | setGroup hostRes id gid =>
    cases hostRes with
    | error e => exact hInv
    | ok u =>
      show RegistryInv ((setSessionGroup (Except.ok u) id gid st).1)
      cases hget : mapGet st.sessions id with
      | none =>
        rw [setSessionGroup_ok_none u id gid st hget]
        exact hInv
      | some s =>
        rw [setSessionGroup_ok_some u id gid st s hget]
        exact registryInv_sessionUpdate hInv hget rfl
  | createG hostRes =>
    cases hostRes with
    | error e => exact hInv
    | ok g => exact registryInv_congr rfl rfl rfl hInv
  | deleteG hostDel oracle gid =>
    cases hostDel with
    | error e => exact hInv
    | ok u =>
      show RegistryInv ((deleteGroup (Except.ok u) oracle gid st).1)
      obtain ⟨ha, hsp, _, hh, hk⟩ := deleteGroupLoop_fields oracle
        ((getSessionsInGroup st (some gid)).map (fun s => s.id)) st
      rcases hloop : deleteGroupLoop oracle
        ((getSessionsInGroup st (some gid)).map (fun s => s.id)) st with ⟨st1, res⟩
      rw [hloop] at ha hsp hh hk
      cases res with
      | ok v =>
        have hd : (deleteGroup (Except.ok u) oracle gid st).1 =
            { st1 with groups := mapDelete st1.groups gid } := by
          show (match deleteGroupLoop oracle
              ((getSessionsInGroup st (some gid)).map (fun s : Session => s.id)) st with
            | (s1, Except.ok _) =>
              ({ s1 with groups := mapDelete s1.groups gid }, Except.ok ())
            | (s1, Except.error e) => (s1, Except.error e)).1 = _
          rw [hloop]
        rw [hd]
        exact registryInv_of_fields ha (congrArg SplitView.sessionIds hsp) hh
          (hk hInv.2.2) hInv
      | error e =>
        have hd : (deleteGroup (Except.ok u) oracle gid st).1 = st1 := by
          show (match deleteGroupLoop oracle
              ((getSessionsInGroup st (some gid)).map (fun s : Session => s.id)) st with
            | (s1, Except.ok _) =>
              ({ s1 with groups := mapDelete s1.groups gid }, Except.ok ())
            | (s1, Except.error e) => (s1, Except.error e)).1 = _
          rw [hloop]
        rw [hd]
        exact registryInv_of_fields ha (congrArg SplitView.sessionIds hsp) hh
          (hk hInv.2.2) hInv
  | renameG hostRes id nm =>
    cases hostRes with
    | error e => exact hInv
    | ok u =>
      show RegistryInv ((renameGroup (Except.ok u) id nm st).1)
      cases hget : mapGet st.groups id with
      | none =>
        have hr : renameGroup (Except.ok u) id nm st = (st, Except.ok ()) := by
          unfold renameGroup
          rw [hget]
        rw [hr]
        exact hInv
      | some g =>
        have hr : renameGroup (Except.ok u) id nm st =
            ({ st with groups := mapSet st.groups id { g with name := nm } },
             Except.ok ()) := by
          unfold renameGroup
          rw [hget]
        rw [hr]
        exact registryInv_congr rfl rfl rfl hInv
  | toggleC hostRes id =>
    cases hostRes with
    | error e => exact hInv
    | ok b =>
      show RegistryInv ((toggleGroupCollapsed (Except.ok b) id st).1)
      cases hget : mapGet st.groups id with
      | none =>
        have hr : toggleGroupCollapsed (Except.ok b) id st = (st, Except.ok ()) := by
          unfold toggleGroupCollapsed
          rw [hget]
        rw [hr]
        exact hInv
      | some g =>
        have hr : toggleGroupCollapsed (Except.ok b) id st =
            ({ st with groups := mapSet st.groups id { g with collapsed := b } },
             Except.ok ()) := by
          unfold toggleGroupCollapsed
          rw [hget]
        rw [hr]
        exact registryInv_congr rfl rfl rfl hInv
  | enable ids dir =>
    show RegistryInv (enableSplitView ids dir st)
    unfold enableSplitView
    by_cases hlen : ids.length < 2
    · rw [if_pos hlen]
      exact hInv
    · rw [if_neg hlen]
      refine ⟨?_, ?_, hInv.2.2⟩
      · cases hh : ids.head? with
        | none => exact activeOk_of_none rfl
        | some x => exact activeOk_of_has rfl (hValid x (mem_of_head?_eq hh))
      · apply splitIdsOk_intro
        intro i hi
        exact hValid i hi
  | disable =>
    show RegistryInv (disableSplitView st)
    refine ⟨?_, ?_, hInv.2.2⟩
    · cases hh : st.splitView.sessionIds.head? with
      | none =>
        have hj : jsFirstOr st.splitView.sessionIds st.activeSessionId =
            st.activeSessionId := by
          unfold jsFirstOr
          rw [hh]
        rcases activeOk_elim hInv.1 with hn | ⟨a, ha, hha⟩
        · apply activeOk_of_none
          show jsFirstOr st.splitView.sessionIds st.activeSessionId = none
          rw [hj, hn]
        · refine activeOk_of_has ?_ hha
          show jsFirstOr st.splitView.sessionIds st.activeSessionId = some a
          rw [hj, ha]
      | some x =>
        have hx : x ∈ st.splitView.sessionIds := mem_of_head?_eq hh
        by_cases ht : jsTruthy x = true
        · refine activeOk_of_has ?_ (splitIdsOk_elim hInv.2.1 x hx)
          show jsFirstOr st.splitView.sessionIds st.activeSessionId = some x
          unfold jsFirstOr
          rw [hh]
          show (if jsTruthy x = true then some x else st.activeSessionId) = some x
          rw [if_pos ht]
        · have hj : jsFirstOr st.splitView.sessionIds st.activeSessionId =
              st.activeSessionId := by
            unfold jsFirstOr
            rw [hh]
            show (if jsTruthy x = true then some x else st.activeSessionId) = _
            rw [if_neg ht]
          rcases activeOk_elim hInv.1 with hn | ⟨a, ha, hha⟩
          · apply activeOk_of_none
            show jsFirstOr st.splitView.sessionIds st.activeSessionId = none
            rw [hj, hn]
          · refine activeOk_of_has ?_ hha
            show jsFirstOr st.splitView.sessionIds st.activeSessionId = some a
            rw [hj, ha]
    · apply splitIdsOk_intro
      intro i hi
      exact absurd hi (List.not_mem_nil i)
  | add sid =>
    show RegistryInv (addToSplit sid st)
    unfold addToSplit
    split
    · exact hInv
    · rename_i hhas0
      have hsid : mapHas st.sessions sid = true := not_not.mp hhas0
      split
      · rcases hact : st.activeSessionId with _ | activeId
        · exact hInv
        · show RegistryInv
            (if jsTruthy activeId = true ∧ activeId ≠ sid then
              { sessions := st.sessions, groups := st.groups,
                activeSessionId := some activeId, isLoading := st.isLoading,
                splitView :=
                  { enabled := true, sessionIds := [activeId, sid],
                    direction := SplitDirection.vertical } }
             else st)
          have hhact : mapHas st.sessions activeId = true := by
            have h1 := hInv.1
            unfold activeOk at h1
            rw [hact] at h1
            exact h1
          split
          · refine ⟨?_, ?_, hInv.2.2⟩
            · exact activeOk_of_has rfl hhact
            · apply splitIdsOk_intro
              intro i hi
              have hi2 : i = activeId ∨ i = sid := by simpa using hi
              rcases hi2 with rfl | rfl
              · exact hhact
              · exact hsid
          · exact hInv
      · split
        · exact hInv
        · refine ⟨?_, ?_, hInv.2.2⟩
          · rcases activeOk_elim hInv.1 with hn | ⟨a, ha, hha⟩
            · exact activeOk_of_none hn
            · exact activeOk_of_has ha hha
          · apply splitIdsOk_intro
            intro i hi
            have hi' : i ∈ st.splitView.sessionIds ++ [sid] := hi
            rcases List.mem_append.mp hi' with h | h
            · exact splitIdsOk_elim hInv.2.1 i h
            · rw [List.mem_singleton.mp h]
              exact hsid
  | remove sid =>
    show RegistryInv (removeFromSplit sid st)
    rw [removeFromSplit_eq]
    by_cases hlen : (st.splitView.sessionIds.filter (fun i => i ≠ sid)).length < 2
    · rw [if_pos hlen]
      refine ⟨?_, ?_, hInv.2.2⟩
      · cases hh : (st.splitView.sessionIds.filter (fun i => i ≠ sid)).head? with
        | none =>
          apply activeOk_of_none
          show jsFirstOrNull (st.splitView.sessionIds.filter (fun i => i ≠ sid)) = none
          unfold jsFirstOrNull
          rw [hh]
        | some x =>
          have hx : x ∈ st.splitView.sessionIds :=
            (List.mem_filter.mp (mem_of_head?_eq hh)).1
          by_cases ht : jsTruthy x = true
          · refine activeOk_of_has ?_ (splitIdsOk_elim hInv.2.1 x hx)
            show jsFirstOrNull
              (st.splitView.sessionIds.filter (fun i => i ≠ sid)) = some x
            unfold jsFirstOrNull
            rw [hh]
            show (if jsTruthy x = true then some x else none) = some x
            rw [if_pos ht]
          · apply activeOk_of_none
            show jsFirstOrNull
              (st.splitView.sessionIds.filter (fun i => i ≠ sid)) = none
            unfold jsFirstOrNull
            rw [hh]
            show (if jsTruthy x = true then some x else none) = none
            rw [if_neg ht]
      · apply splitIdsOk_intro
        intro i hi
        exact absurd hi (List.not_mem_nil i)
    · rw [if_neg hlen]
      refine ⟨?_, ?_, hInv.2.2⟩
      · rcases activeOk_elim hInv.1 with hn | ⟨a, ha, hha⟩
        · exact activeOk_of_none hn
        · exact activeOk_of_has ha hha
      · apply splitIdsOk_intro
        intro i hi
        have hi' : i ∈ st.splitView.sessionIds.filter (fun x => x ≠ sid) := hi
        exact splitIdsOk_elim hInv.2.1 i (List.mem_filter.mp hi').1
  | setDir dir => exact registryInv_congr rfl rfl rfl hInv
  | splitG gid dir =>
    show RegistryInv (splitGroup gid dir st)
    show RegistryInv
      (if (getSessionsInGroup st (some gid)).length < 2 then st
       else
        { st with
          splitView :=
            { enabled := true,
              sessionIds := (getSessionsInGroup st (some gid)).map (fun s => s.id),
              direction := dir }
          activeSessionId :=
            ((getSessionsInGroup st (some gid)).map (fun s => s.id)).head? })
    by_cases hlen : (getSessionsInGroup st (some gid)).length < 2
    · rw [if_pos hlen]
      exact hInv
    · rw [if_neg hlen]
      have hids : ∀ i ∈ (getSessionsInGroup st (some gid)).map (fun s => s.id),
          mapHas st.sessions i = true := by
        intro i hi
        rcases List.mem_map.mp hi with ⟨s, hs, hsid⟩
        have hs' : s ∈ (mapValues st.sessions).filter
            (fun x : Session => x.groupId = some gid) := hs
        rcases List.mem_filter.mp hs' with ⟨hsv, _⟩
        rcases List.mem_map.mp hsv with ⟨kv, hkv, hkvs⟩
        have hkm : kv.2.id = kv.1 := by
          have := List.all_eq_true.mp hInv.2.2 kv hkv
          simpa using this
        have hik : i = kv.1 := by rw [← hsid, ← hkvs, hkm]
        rw [hik]
        exact mapHas_iff_keys.mpr (List.mem_map.mpr ⟨kv, hkv, rfl⟩)
      refine ⟨?_, ?_, hInv.2.2⟩
      · cases hh : ((getSessionsInGroup st (some gid)).map (fun s => s.id)).head? with
        | none => exact activeOk_of_none rfl
        | some x => exact activeOk_of_has rfl (hids x (mem_of_head?_eq hh))
      · apply splitIdsOk_intro
        intro i hi
        exact hids i hi
  | loadL snapshot oracle =>
    show RegistryInv (loadLayout snapshot oracle st)
    cases snapshot with
    | error e => exact registryInv_congr rfl rfl rfl hInv
    | ok osnap =>
      cases osnap with
      | none => exact registryInv_congr rfl rfl rfl hInv
      | some appState =>
        rw [loadLayout_ok_some appState oracle st]
        refine ⟨?_, ?_, ?_⟩
        · rcases foldl_updateFirst_cases
            (restoredEntries oracle 0 appState.sessions) none with h | ⟨info, hm, he⟩
          · apply activeOk_of_none
            show (restoredEntries oracle 0 appState.sessions).foldl
              (fun f i => updateFirstSessionId f i.id) none = none
            exact h
          · refine @activeOk_of_has _ info.id ?_ ?_
            · show (restoredEntries oracle 0 appState.sessions).foldl
                (fun f i => updateFirstSessionId f i.id) none = some info.id
              exact he
            · show mapHas ((restoredEntries oracle 0 appState.sessions).foldl
                (fun m i => mapSet m i.id (sessionOfInfo i)) st.sessions) info.id = true
              exact mapHas_foldl_mem _ _ info hm
        · apply splitIdsOk_intro
          intro i hi
          show mapHas ((restoredEntries oracle 0 appState.sessions).foldl
            (fun m x => mapSet m x.id (sessionOfInfo x)) st.sessions) i = true
          exact mapHas_foldl_mono _ _ i (splitIdsOk_elim hInv.2.1 i hi)
        · show ((restoredEntries oracle 0 appState.sessions).foldl
            (fun m x => mapSet m x.id (sessionOfInfo x)) st.sessions).all
              (fun kv => kv.2.id = kv.1) = true
          exact keysMatch_foldl_infos _ _ hInv.2.2

/-- C9 witness: `setActiveSession` with the registered id `"a"` keeps the
invariant on the one-session store. -/
theorem registryInv_preserved_witness :
    activeOk (applyStoreOp (StoreOp.setActive (some "a")) oneSessionStore) = true ∧
    RegistryInv (applyStoreOp (StoreOp.setActive (some "a")) oneSessionStore) :=
  registryInv_preserved (StoreOp.setActive (some "a")) oneSessionStore
    ⟨by decide, by decide, by decide⟩
    (show mapHas oneSessionStore.sessions "a" = true by decide)

/-- C9 counterexample: starting from a state satisfying the invariant,
`setActiveSession` with an arbitrary unregistered id makes the active
selection a key not present in the registry — the claimed invariant does not
hold after `setActiveSession` with an arbitrary id. -/
theorem setActive_unregistered_cex :
    activeOk oneSessionStore = true ∧
    activeOk (setActiveSession (some "ghost") oneSessionStore) = false := by
  decide

end Shelltree
